import Mathlib

set_option maxHeartbeats 1000000
set_option maxRecDepth 8000

/-!
Verification of the side-by-side rendering core of `delta`
(`src/wrapping.rs` and `src/features/side_by_side.rs`), shallowly embedded.

Strings are modelled at grapheme granularity: one `Char` stands for one
extended grapheme cluster, since the source measures, splits and pads text
only at grapheme boundaries.
-/

namespace DeltaSbs

/-- A text is a list of extended grapheme clusters, one `Char` per cluster. -/
abbrev Text := List Char

/-- `side_by_side.rs`: `LineSegments<'a, S> = Vec<(S, &'a str)>`. -/
abbrev LineSegments (S : Type) := List (S × Text)

/-- `minusplus.rs::MinusPlus`: a pair-of-T container indexed by side. -/
structure MinusPlus (α : Type) where
  minus : α
  plus : α
deriving DecidableEq

/-- `minusplus.rs::MinusPlusIndex` (aliased Left/Right in side-by-side code:
Left = Minus, Right = Plus). -/
inductive MinusPlusIndex where
  | Minus
  | Plus
deriving DecidableEq

/-- `side_by_side.rs::PanelSide` is an alias of `MinusPlusIndex`. -/
abbrev PanelSide := MinusPlusIndex

/-- Indexing a `MinusPlus` container by side (`Index<MinusPlusIndex>`). -/
def MinusPlus.get {α : Type} (mp : MinusPlus α) : MinusPlusIndex → α
  | .Minus => mp.minus
  | .Plus => mp.plus

/-- `delta::State`, restricted to the hunk states of the side-by-side core.
The payload of `HunkMinus`/`HunkPlus` is the optional raw line. -/
inductive State where
  | HunkMinus (raw : Option Text)
  | HunkMinusWrapped
  | HunkPlus (raw : Option Text)
  | HunkPlusWrapped
  | HunkZero
  | HunkZeroWrapped
deriving DecidableEq

/-- `config::INLINE_SYMBOL_WIDTH_1`. -/
def INLINE_SYMBOL_WIDTH_1 : Nat := 1

/-- `wrapping.rs::WrapConfig`. The syntect style it carries in the source
(`inline_hint_syntect_style`) lives in `Config` here, so that `WrapConfig`
stays style-type independent. -/
structure WrapConfig where
  left_symbol : Text
  right_symbol : Text
  right_prefix_symbol : Text
  use_wrap_right_permille : Nat
  max_lines : Nat
deriving DecidableEq

/-- `wrap_line`'s `LINEPREFIX`, the synthetic one-grapheme marker-column text. -/
def LINEPRE : Text := ['_']

/-- `wrap_line`'s `CurrLine`: the physical line being assembled. -/
structure CurrLine (S : Type) where
  line_segments : LineSegments S
  len : Nat
deriving DecidableEq

/-- `CurrLine::reset()`. -/
def CurrLine.reset (S : Type) [Inhabited S] : CurrLine S :=
  ⟨[(default, LINEPRE)], LINEPRE.length⟩

/-- `CurrLine::push_and_set_len`. -/
def CurrLine.push {S : Type} (c : CurrLine S) (seg : S × Text) (l : Nat) : CurrLine S :=
  ⟨c.line_segments ++ [seg], l⟩

/-- `CurrLine::has_text`. -/
def CurrLine.has_text {S : Type} (c : CurrLine S) : Bool :=
  c.len > LINEPRE.length

/-- `CurrLine::text_len` (the source returns 0 below the marker width, as Nat
subtraction does here). -/
def CurrLine.text_len {S : Type} (c : CurrLine S) : Nat :=
  c.len - LINEPRE.length

/-- The closure `line_limit_reached` inside `wrap_line`: with a content width
of at most one column only the wrap symbol would fit, so the effective cap is
one line; otherwise it is `max_lines` (0 = unlimited). -/
def line_limit_reached (wc : WrapConfig) (line_width : Nat) (resultLen : Nat) : Bool :=
  let max_lines := if line_width ≤ INLINE_SYMBOL_WIDTH_1 then 1 else wc.max_lines
  max_lines > 0 && resultLen + 1 ≥ max_lines

/-- The `must_split` block of `wrap_line`: find the grapheme split position,
close the current line with the wrap symbol, and push the tail back. Returns
the finished line and the pushed-back segment. -/
def splitStep {S : Type} (wc : WrapConfig) (symbol_style : S) (max_len : Nat)
    (style : S) (text : Text) (curr : CurrLine S) : LineSegments S × (S × Text) :=
  let new_len := curr.len + text.length
  let grapheme_split_pos := text.length - (new_len - max_len) - 1
  let segs := curr.line_segments
  let (segs, next_line) :=
    if grapheme_split_pos = 0 then (segs, text)
    else (segs ++ [(style, text.take grapheme_split_pos)], text.drop grapheme_split_pos)
  (segs ++ [(symbol_style, wc.left_symbol)], (style, next_line))

/-- Total grapheme count on the stack. -/
def sumLens {S : Type} (stack : LineSegments S) : Nat :=
  (stack.map (fun p => p.2.length)).sum

/-- The main loop of `wrap_line` (`while !stack.is_empty() && ...`), written as
a fuel-indexed structural recursion. Each executed iteration strictly
decreases `2 * sumLens stack + 2 * stack.length + (if 2 ≤ curr.len then 1
else 0)`, so the fuel `wrapFuel` chosen by `wrap_line` dominates the step
count and the fuel guard never cuts the loop short. Returns
`(result, curr_line, remaining stack)`. -/
def wrapLoop {S : Type} [Inhabited S] (wc : WrapConfig) (symbol_style : S) (line_width : Nat) :
    Nat → LineSegments S → CurrLine S → List (LineSegments S) →
    List (LineSegments S) × CurrLine S × LineSegments S
  | 0, stack, curr, result => (result, curr, stack)
  | _ + 1, [], curr, result => (result, curr, [])
  | fuel + 1, (style, text) :: rest, curr, result =>
    let max_len := line_width + LINEPRE.length
    if line_limit_reached wc line_width result.length = true ∨ max_len ≤ LINEPRE.length then
      (result, curr, (style, text) :: rest)
    else
      let new_len := curr.len + text.length
      if new_len < max_len then
        wrapLoop wc symbol_style line_width fuel rest (curr.push (style, text) new_len) result
      else if new_len = max_len then
        match rest with
        | [] =>
          -- Perfect fit, no need to make space for a wrap symbol.
          wrapLoop wc symbol_style line_width fuel [] (curr.push (style, text) new_len) result
        | (next_style, nl) :: rest2 =>
          if rest2.isEmpty = true ∧ nl = ['\n'] then
            -- A single trailing newline segment does not consume a column.
            wrapLoop wc symbol_style line_width fuel rest2
              ((curr.push (style, text) new_len).push (next_style, nl) (new_len + 0)) result
          else
            let (line, nxt) := splitStep wc symbol_style max_len style text curr
            wrapLoop wc symbol_style line_width fuel (nxt :: rest) (CurrLine.reset S)
              (result ++ [line])
      else if new_len = max_len + 1 ∧ rest.isEmpty = true then
        if text.getLast? = some '\n' then
          -- The one overhanging grapheme is the newline, which is free.
          wrapLoop wc symbol_style line_width fuel rest (curr.push (style, text) (new_len - 1))
            result
        else
          let (line, nxt) := splitStep wc symbol_style max_len style text curr
          wrapLoop wc symbol_style line_width fuel (nxt :: rest) (CurrLine.reset S)
            (result ++ [line])
      else
        let (line, nxt) := splitStep wc symbol_style max_len style text curr
        wrapLoop wc symbol_style line_width fuel (nxt :: rest) (CurrLine.reset S)
          (result ++ [line])

/-- Fuel that dominates `wrapLoop`'s iteration count (see `wrapLoop`). -/
def wrapFuel {S : Type} (line : LineSegments S) : Nat :=
  2 * sumLens line + 2 * line.length + 2

/-- The 64-space constant the right-aligned padding slices. -/
def SPACES : Text := List.replicate 64 ' '

/-- The padding segments of a right-aligned line: `pad_len / 64` full chunks
of `SPACES` plus the `pad_len % 64` remainder slice. -/
def padSegments {S : Type} (fill_style : S) (pad_len : Nat) : LineSegments S :=
  List.replicate (pad_len / SPACES.length) (fill_style, SPACES) ++
    (if pad_len % SPACES.length = 0 then []
     else [(fill_style, SPACES.take (pad_len % SPACES.length))])

/-- `result.last_mut()` update in the right-align block: replace the text of
the last segment of the last produced line by `right_symbol`, keeping its
style. The source's `unreachable!` arms (no produced line, or an empty last
line) leave the list unchanged here; they cannot be reached from
`wrap_line`. -/
def replaceWrapSymbol {S : Type} (right_symbol : Text) (result : List (LineSegments S)) :
    List (LineSegments S) :=
  match result.getLast? with
  | none => result
  | some line =>
    match line.getLast? with
    | none => result
    | some (st, _) => result.dropLast ++ [line.dropLast ++ [(st, right_symbol)]]

/-- The right-align block at the end of `wrap_line`: if wrapping produced
exactly one extra line and the tail is narrow enough, swap the wrap symbol
of the first line for `right_symbol` and rebuild the current (second) line
right-aligned behind `right_prefix_symbol`. -/
def rightAlignTail {S : Type} [Inhabited S] (wc : WrapConfig) (symbol_style fill_style : S)
    (line_width : Nat) (result : List (LineSegments S)) (curr : CurrLine S) :
    List (LineSegments S) × CurrLine S :=
  let max_len := line_width + LINEPRE.length
  if result.length = 1 ∧ curr.has_text = true then
    let current_permille := curr.text_len * 1000 / max_len
    let pad_len := max_len - (curr.text_len + INLINE_SYMBOL_WIDTH_1)
    if wc.use_wrap_right_permille > current_permille ∧ pad_len > INLINE_SYMBOL_WIDTH_1 then
      let result := replaceWrapSymbol wc.right_symbol result
      let right_aligned_line :=
        (default, LINEPRE) :: (padSegments fill_style pad_len ++
          [(symbol_style, wc.right_prefix_symbol)] ++ curr.line_segments.drop 1)
      (result, { curr with line_segments := right_aligned_line })
    else (result, curr)
  else (result, curr)

/-- End of `wrap_line`: push the assembled current line if it has a length. -/
def flushCurr {S : Type} (result : List (LineSegments S)) (curr : CurrLine S) :
    List (LineSegments S) :=
  if curr.len > 0 then result ++ [curr.line_segments] else result

/-- End of `wrap_line`: whatever is left on the stack (the line cap was
reached) is appended verbatim to the last produced line; the caller
truncates later. -/
def flushStack {S : Type} (result : List (LineSegments S)) (stack : LineSegments S) :
    List (LineSegments S) :=
  if stack.isEmpty then result
  else
    let result := if result.isEmpty then [[]] else result
    result.dropLast ++ [result.getLastD [] ++ stack]

/-- `wrapping.rs::wrap_line`. -/
def wrap_line {S : Type} [Inhabited S] (wc : WrapConfig) (line : LineSegments S)
    (line_width : Nat) (fill_style : S) (inline_hint_style : Option S) :
    List (LineSegments S) :=
  let symbol_style := inline_hint_style.getD fill_style
  let lcr := wrapLoop wc symbol_style line_width (wrapFuel line) line ⟨[], 0⟩ []
  let ra := rightAlignTail wc symbol_style fill_style line_width lcr.1 lcr.2.1
  flushStack (flushCurr ra.1 ra.2) lcr.2.2

/-- `wrapping.rs::wrap_if_too_long`: wrap the line if its mask bit says it is
too long, else push it unchanged; return the index range it now occupies. -/
def wrap_if_too_long {S : Type} [Inhabited S] (wc : WrapConfig)
    (wrapped : List (LineSegments S)) (input_vec : LineSegments S) (must_wrap : Bool)
    (line_width : Nat) (fill_style : S) (inline_hint_style : Option S) :
    List (LineSegments S) × Nat × Nat :=
  let size_prev := wrapped.length
  let wrapped :=
    if must_wrap then
      wrapped ++ wrap_line wc input_vec line_width fill_style inline_hint_style
    else wrapped ++ [input_vec]
  (wrapped, size_prev, wrapped.length)

/-- The slice of `config::Config` that `wrap_minusplus_block` reads. `σ` is
the syntect (syntax highlighting) style type and `δ` the diff style type,
both opaque to the core. `inline_hint_syntect_style` sits inside
`wrap_config` in the source; `inline_hint_style_has_background` models the
test `config.inline_hint_style.ansi_term_style.background.is_some()`. -/
structure Config (σ δ : Type) where
  wrap_config : WrapConfig
  null_syntect_style : σ
  inline_hint_syntect_style : σ
  minus_style : δ
  plus_style : δ
  inline_hint_style : δ
  inline_hint_style_has_background : Bool

/-- `wrap_minusplus_block`'s internal helper `wrap_syntax_and_diff`: advance
the wrap-info, syntax and diff iterators by one line, wrap both sections, and
assert that both wrapped to the same index range. The source's panics are
`Except.error` values carrying the same message and positional hint. -/
def wrap_syntax_and_diff {σ δ : Type} [Inhabited σ] [Inhabited δ] (cfg : Config σ δ)
    (wrapped_syn : List (LineSegments σ)) (wrapped_diff : List (LineSegments δ))
    (syn_iter : List (LineSegments σ)) (diff_iter : List (LineSegments δ))
    (wrapinfo_iter : List Bool) (line_width : Nat) (fill_style : δ) (errhint : String) :
    Except String (List (LineSegments σ) × List (LineSegments δ) ×
      List (LineSegments σ) × List (LineSegments δ) × List Bool × Nat × Nat) :=
  match wrapinfo_iter with
  | [] => .error ("bad wrap info " ++ errhint)
  | must_wrap :: wrapinfo_iter =>
    match syn_iter with
    | [] => .error ("bad syntax alignment " ++ errhint)
    | syn_line :: syn_iter =>
      let ws := wrap_if_too_long cfg.wrap_config wrapped_syn syn_line must_wrap line_width
        cfg.null_syntect_style (some cfg.inline_hint_syntect_style)
      let inline_hint_style : Option δ :=
        if cfg.inline_hint_style_has_background then some cfg.inline_hint_style else none
      match diff_iter with
      | [] => .error ("bad diff alignment " ++ errhint)
      | diff_line :: diff_iter =>
        let wd := wrap_if_too_long cfg.wrap_config wrapped_diff diff_line must_wrap
          line_width fill_style inline_hint_style
        if ws.2 = wd.2 then
          .ok (ws.1, wd.1, syn_iter, diff_iter, wrapinfo_iter, ws.2.1, ws.2.2)
        else .error ("syntax and diff wrapping differs " ++ errhint)

/-- The state threaded through `wrap_minusplus_block`'s alignment loop: the
accumulators being built and the per-side iterators being consumed. -/
structure WmpState (σ δ : Type) where
  newAlignment : List (Option Nat × Option Nat)
  newStates : MinusPlus (List State)
  newWrappedSyn : MinusPlus (List (LineSegments σ))
  newWrappedDiff : MinusPlus (List (LineSegments δ))
  synRest : MinusPlus (List (LineSegments σ))
  diffRest : MinusPlus (List (LineSegments δ))
  wrapRest : MinusPlus (List Bool)
  m_expected : Nat
  p_expected : Nat
deriving DecidableEq

/-- The `wrap_and_assert!` macro, Left (minus) side: check the alignment
index against the running counter, then wrap one line on both sections. -/
def wrapAndAssertLeft {σ δ : Type} [Inhabited σ] [Inhabited δ] (cfg : Config σ δ)
    (line_width : Nat) (st : WmpState σ δ) (errhint : String) (have_ : Nat) :
    Except String (WmpState σ δ × Nat × Nat) :=
  if have_ = st.m_expected then
    match wrap_syntax_and_diff cfg st.newWrappedSyn.minus st.newWrappedDiff.minus
        st.synRest.minus st.diffRest.minus st.wrapRest.minus line_width
        cfg.minus_style errhint with
    | .error err => .error err
    | .ok (ws, wd, si, di, wi, start, extended_to) =>
      .ok ({ st with
        newWrappedSyn := { st.newWrappedSyn with minus := ws }
        newWrappedDiff := { st.newWrappedDiff with minus := wd }
        synRest := { st.synRest with minus := si }
        diffRest := { st.diffRest with minus := di }
        wrapRest := { st.wrapRest with minus := wi }
        m_expected := st.m_expected + 1 }, start, extended_to)
  else .error ("bad alignment index " ++ errhint)

/-- The `wrap_and_assert!` macro, Right (plus) side. -/
def wrapAndAssertRight {σ δ : Type} [Inhabited σ] [Inhabited δ] (cfg : Config σ δ)
    (line_width : Nat) (st : WmpState σ δ) (errhint : String) (have_ : Nat) :
    Except String (WmpState σ δ × Nat × Nat) :=
  if have_ = st.p_expected then
    match wrap_syntax_and_diff cfg st.newWrappedSyn.plus st.newWrappedDiff.plus
        st.synRest.plus st.diffRest.plus st.wrapRest.plus line_width
        cfg.plus_style errhint with
    | .error err => .error err
    | .ok (ws, wd, si, di, wi, start, extended_to) =>
      .ok ({ st with
        newWrappedSyn := { st.newWrappedSyn with plus := ws }
        newWrappedDiff := { st.newWrappedDiff with plus := wd }
        synRest := { st.synRest with plus := si }
        diffRest := { st.diffRest with plus := di }
        wrapRest := { st.wrapRest with plus := wi }
        p_expected := st.p_expected + 1 }, start, extended_to)
  else .error ("bad alignment index " ++ errhint)

/-- States pushed per alignment entry: the first physical row of a logical
line keeps the unwrapped state, subsequent rows get the Wrapped state. -/
def pushStates {σ δ : Type} (st : WmpState σ δ) (minus_extended plus_extended : Nat) :
    WmpState σ δ :=
  let st :=
    if minus_extended > 0 then
      { st with newStates := { st.newStates with
          minus := st.newStates.minus ++
            State.HunkMinus none :: List.replicate (minus_extended - 1)
              State.HunkMinusWrapped } }
    else st
  if plus_extended > 0 then
    { st with newStates := { st.newStates with
        plus := st.newStates.plus ++
          State.HunkPlus none :: List.replicate (plus_extended - 1)
            State.HunkPlusWrapped } }
  else st

/-- The zipped both-Some rows pushed for a `(Some m, Some p)` entry. -/
def pairZip (minus_start m_extended_to plus_start p_extended_to : Nat) :
    List (Option Nat × Option Nat) :=
  ((List.range' minus_start (m_extended_to - minus_start)).zip
    (List.range' plus_start (p_extended_to - plus_start))).map
    (fun q => (some q.1, some q.2))

/-- The one-sided tail rows that fill up the shorter side of an unevenly
wrapped pair with None. -/
def pairTail (m_extended_to p_extended_to minus_extended plus_extended : Nat) :
    List (Option Nat × Option Nat) :=
  if minus_extended > plus_extended then
    (List.range' (m_extended_to - (minus_extended - plus_extended))
      (minus_extended - plus_extended)).map (fun i => (some i, none))
  else if plus_extended > minus_extended then
    (List.range' (p_extended_to - (plus_extended - minus_extended))
      (plus_extended - minus_extended)).map (fun i => (none, some i))
  else []

/-- One iteration of `wrap_minusplus_block`'s loop over the alignment. -/
def wmpStep {σ δ : Type} [Inhabited σ] [Inhabited δ] (cfg : Config σ δ)
    (line_width : MinusPlus Nat) (st : WmpState σ δ) (entry : Option Nat × Option Nat) :
    Except String (WmpState σ δ) :=
  match entry with
  | (some m, none) =>
    match wrapAndAssertLeft cfg line_width.minus st "[*l*] (-)" m with
    | .error err => .error err
    | .ok (st, minus_start, extended_to) =>
      let st := { st with newAlignment := st.newAlignment ++
        (List.range' minus_start (extended_to - minus_start)).map (fun i => (some i, none)) }
      .ok (pushStates st (extended_to - minus_start) 0)
  | (none, some p) =>
    match wrapAndAssertRight cfg line_width.plus st "(-) [*r*]" p with
    | .error err => .error err
    | .ok (st, plus_start, extended_to) =>
      let st := { st with newAlignment := st.newAlignment ++
        (List.range' plus_start (extended_to - plus_start)).map (fun i => (none, some i)) }
      .ok (pushStates st 0 (extended_to - plus_start))
  | (some m, some p) =>
    match wrapAndAssertLeft cfg line_width.minus st "[*l*] (r)" m with
    | .error err => .error err
    | .ok (st, minus_start, m_extended_to) =>
      match wrapAndAssertRight cfg line_width.plus st "(l) [*r*]" p with
      | .error err => .error err
      | .ok (st, plus_start, p_extended_to) =>
        let minus_extended := m_extended_to - minus_start
        let plus_extended := p_extended_to - plus_start
        let st := { st with newAlignment := st.newAlignment ++
          (pairZip minus_start m_extended_to plus_start p_extended_to ++
            pairTail m_extended_to p_extended_to minus_extended plus_extended) }
        .ok (pushStates st minus_extended plus_extended)
  | (none, none) => .error "None-None alignment"

/-- The loop of `wrap_minusplus_block` over the alignment entries. -/
def wmpFold {σ δ : Type} [Inhabited σ] [Inhabited δ] (cfg : Config σ δ)
    (line_width : MinusPlus Nat) :
    WmpState σ δ → List (Option Nat × Option Nat) → Except String (WmpState σ δ)
  | st, [] => .ok st
  | st, entry :: rest =>
    match wmpStep cfg line_width st entry with
    | .error err => .error err
    | .ok st => wmpFold cfg line_width st rest

/-- The initial state of `wrap_minusplus_block`: empty accumulators, the
inputs as iterators, both expected indices 0. -/
def wmpInit {σ δ : Type} (syn : MinusPlus (List (LineSegments σ)))
    (diff : MinusPlus (List (LineSegments δ))) (wrapinfo : MinusPlus (List Bool)) :
    WmpState σ δ :=
  ⟨[], ⟨[], []⟩, ⟨[], []⟩, ⟨[], []⟩, syn, diff, wrapinfo, 0, 0⟩

/-- `wrapping.rs::wrap_minusplus_block`. -/
def wrap_minusplus_block {σ δ : Type} [Inhabited σ] [Inhabited δ] (cfg : Config σ δ)
    (syn : MinusPlus (List (LineSegments σ))) (diff : MinusPlus (List (LineSegments δ)))
    (alignment : List (Option Nat × Option Nat)) (line_width : MinusPlus Nat)
    (wrapinfo : MinusPlus (List Bool)) :
    Except String (List (Option Nat × Option Nat) × MinusPlus (List State) ×
      MinusPlus (List (LineSegments σ)) × MinusPlus (List (LineSegments δ))) :=
  match wmpFold cfg line_width (wmpInit syn diff wrapinfo) alignment with
  | .error err => .error err
  | .ok st => .ok (st.newAlignment, st.newStates, st.newWrappedSyn, st.newWrappedDiff)

/-- `side_by_side.rs::line_is_too_long`: the line's grapheme count against the
available width, allowing two never-printed graphemes (leading marker and
trailing newline). -/
def line_is_too_long (line : Text) (line_width : Nat) : Bool :=
  line.length > line_width + 2

/-- `side_by_side.rs::has_long_lines`: the any-too-long summary and the
per-line mask, per side. -/
def has_long_lines (lines : MinusPlus (List (Text × State)))
    (line_width : MinusPlus Nat) : Bool × MinusPlus (List Bool) :=
  let wm := lines.minus.map (fun lp => line_is_too_long lp.1 line_width.minus)
  let wp := lines.plus.map (fun lp => line_is_too_long lp.1 line_width.plus)
  (wm.any id || wp.any id, ⟨wm, wp⟩)

/-- Modelled from the spec: the escape sequences the style layer can emit
into a painted half-row (`ansi`/`Painter` are outside the staged sources);
`fillToEol` is the "fill to end of row" background escape. -/
inductive Esc (δ : Type) where
  | sgr (s : δ)
  | reset
  | fillToEol (s : δ)
deriving DecidableEq

/-- Modelled from the spec: a painted half-row is a sequence of visible
graphemes interleaved with ANSI escapes. -/
inductive Tok (δ : Type) where
  | vis (c : Char)
  | esc (e : Esc δ)
deriving DecidableEq

/-- A painted half-row string. -/
abbrev Painted (δ : Type) := List (Tok δ)

/-- Modelled from the spec: `ansi::measure_text_width` strips the ANSI
escapes and counts graphemes. -/
def measure_text_width {δ : Type} (s : Painted δ) : Nat :=
  s.countP (fun t => match t with | .vis _ => true | .esc _ => false)

/-- Keep the first `n` visible graphemes (escapes preserved). -/
def takeVisible {δ : Type} (n : Nat) : Painted δ → Painted δ
  | [] => []
  | .esc e :: r => .esc e :: takeVisible n r
  | .vis c :: r => if n = 0 then [] else .vis c :: takeVisible (n - 1) r

/-- Modelled from the spec: `ansi::truncate_str` truncates ANSI-aware to
`width` columns with the truncation symbol as the last visible grapheme(s). -/
def truncate_str {δ : Type} (s : Painted δ) (width : Nat) (trunc : Text) : Painted δ :=
  takeVisible (width - trunc.length) s ++ trunc.map Tok.vis

/-- Modelled from the spec: painting `txt` with style `st` produces an
ANSI-styled string whose stripped graphemes are exactly `txt`. -/
def paintText {δ : Type} (st : δ) (txt : Text) : Painted δ :=
  Tok.esc (Esc.sgr st) :: (txt.map Tok.vis ++ [Tok.esc Esc.reset])

/-- Modelled from the spec: `Painter::mark_empty_line(style, buf, Some(" "))`
appends one styled blank as the empty-row marker. -/
def mark_empty_line {δ : Type} (style : δ) (buf : Painted δ) : Painted δ :=
  buf ++ paintText style [' ']

/-- Modelled from the spec: `Painter::right_fill_background_color` appends
the ANSI fill-to-end-of-row escape. -/
def right_fill_background_color {δ : Type} (buf : Painted δ) (style : δ) : Painted δ :=
  buf ++ [Tok.esc (Esc.fillToEol style)]

/-- `paint::BgFillMethod`. -/
inductive BgFillMethod where
  | TryAnsiSequence
  | Spaces
deriving DecidableEq

/-- The slice of `config::Config` that the panel padder/truncator reads;
`side_by_side_data` holds the two panel widths. -/
structure PadConfig (δ : Type) where
  side_by_side_data : MinusPlus Nat
  truncation_symbol : Text
  null_style : δ
  minus_empty_line_marker_style : δ
  plus_empty_line_marker_style : δ

/-- `side_by_side.rs::get_right_fill_style_for_panel`. `policy` stands for
the external `Painter::get_should_right_fill_background_color_and_fill_style`
with the `BgShouldFill` argument and config already applied; the source's
out-of-bounds panic on `diff_style_sections[index]` is an error value. -/
def get_right_fill_style_for_panel {δ : Type} (cfg : PadConfig δ)
    (policy : LineSegments δ → State → Option BgFillMethod × δ)
    (line_is_empty : Bool) (line_index : Option Nat)
    (diff_style_sections : List (LineSegments δ)) (state : State)
    (panel_side : PanelSide) : Except String (Option BgFillMethod × δ) :=
  let none_or_override : Option BgFillMethod :=
    if panel_side = .Minus then some .Spaces else none
  match line_is_empty, line_index with
  | true, _ => .ok (none_or_override, cfg.null_style)
  | false, none => .ok (none_or_override, cfg.null_style)
  | false, some index =>
    match diff_style_sections[index]? with
    | none => .error "diff_style_sections index out of bounds"
    | some sections =>
      let pf := policy sections state
      match pf.1 with
      | none => .ok (none_or_override, cfg.null_style)
      | some mode =>
        if panel_side = .Minus then .ok (some .Spaces, pf.2)
        else .ok (some mode, pf.2)

/-- `side_by_side.rs::pad_panel_line_to_width`: empty-row marker, measure,
truncate to panel width, then right-fill by the chosen method. The source's
`unreachable!` on an unexpected state is an error value. -/
def pad_panel_line_to_width {δ : Type} (cfg : PadConfig δ)
    (policy : LineSegments δ → State → Option BgFillMethod × δ)
    (panel_line : Painted δ) (panel_line_is_empty : Bool) (line_index : Option Nat)
    (diff_style_sections : List (LineSegments δ)) (state : State)
    (panel_side : PanelSide) : Except String (Painted δ) :=
  match
    (if panel_line_is_empty = true ∧ line_index.isSome = true then
      match state with
      | .HunkMinus _ =>
        Except.ok (mark_empty_line cfg.minus_empty_line_marker_style panel_line)
      | .HunkPlus _ =>
        Except.ok (mark_empty_line cfg.plus_empty_line_marker_style panel_line)
      | .HunkZero => Except.ok panel_line
      | _ => Except.error "unreachable state in empty line marking"
    else Except.ok panel_line) with
  | .error err => .error err
  | .ok panel_line =>
    let text_width := measure_text_width panel_line
    let panel_width := cfg.side_by_side_data.get panel_side
    let panel_line :=
      if text_width > panel_width then
        truncate_str panel_line panel_width cfg.truncation_symbol
      else panel_line
    match get_right_fill_style_for_panel cfg policy panel_line_is_empty line_index
        diff_style_sections state panel_side with
    | .error err => .error err
    | .ok (bg_fill_mode, fill_style) =>
      match bg_fill_mode with
      | some .TryAnsiSequence => .ok (right_fill_background_color panel_line fill_style)
      | some .Spaces =>
        if text_width ≥ panel_width then .ok panel_line
        else .ok (panel_line ++
          paintText fill_style (List.replicate (panel_width - text_width) ' '))
      | none => .ok panel_line

/-! ### Support definitions for the claims -/

/-- The concatenated text of a styled line. -/
def concatText {S : Type} (l : LineSegments S) : Text :=
  (l.map (fun p => p.2)).flatten

/-- The text kept after erasing the segments whose style marks them as
inserted by the wrapper. -/
def keptText {S : Type} (inserted : S → Bool) (l : LineSegments S) : Text :=
  concatText (l.filter (fun p => !inserted p.1))

/-- Styles erased, texts kept: the control flow of the wrapper never looks at
a style, so two runs over style-erased equal inputs stay in lock step. -/
def eraseSegs {S : Type} (l : LineSegments S) : LineSegments Unit :=
  l.map (fun p => ((), p.2))

/-- `CurrLine` with the styles erased. -/
def eraseCurr {S : Type} (c : CurrLine S) : CurrLine Unit :=
  ⟨eraseSegs c.line_segments, c.len⟩

/-- The continuation-row states of the minus/plus block wrapper. -/
def isWrappedState : State → Bool
  | .HunkMinusWrapped => true
  | .HunkPlusWrapped => true
  | _ => false

/-- Renumbering a physical row index back to the logical line index: the
number of non-continuation rows strictly before it. -/
def logicalIndex (states : List State) (i : Nat) : Nat :=
  (states.take i).countP (fun s => !isWrappedState s)

/-- A post-wrap alignment row survives the walk iff neither side refers to a
continuation row. -/
def keepEntry (sm sp : List State) (e : Option Nat × Option Nat) : Bool :=
  (match e.1 with
   | some i => !isWrappedState (sm.getD i (State.HunkMinus none))
   | none => true) &&
  (match e.2 with
   | some i => !isWrappedState (sp.getD i (State.HunkPlus none))
   | none => true)

/-- Walk the post-wrap alignment, discard continuation rows, renumber the
physical indices back to logical ones. -/
def unwrapAlignment (sm sp : List State) (al : List (Option Nat × Option Nat)) :
    List (Option Nat × Option Nat) :=
  (al.filter (keepEntry sm sp)).map
    (fun e => (e.1.map (logicalIndex sm), e.2.map (logicalIndex sp)))

/-- Number of alignment entries with a minus member. -/
def minusCount (al : List (Option Nat × Option Nat)) : Nat :=
  al.countP (fun e => e.1.isSome)

/-- Number of alignment entries with a plus member. -/
def plusCount (al : List (Option Nat × Option Nat)) : Nat :=
  al.countP (fun e => e.2.isSome)

/-- A valid pre-wrap alignment: the indices of each side appear in order,
counting up from the given expected values, and no entry is `(None, None)`. -/
inductive SeqValid : Nat → Nat → List (Option Nat × Option Nat) → Prop where
  | nil : ∀ m p, SeqValid m p []
  | minusOnly : ∀ m p rest, SeqValid (m + 1) p rest →
      SeqValid m p ((some m, none) :: rest)
  | plusOnly : ∀ m p rest, SeqValid m (p + 1) rest →
      SeqValid m p ((none, some p) :: rest)
  | both : ∀ m p rest, SeqValid (m + 1) (p + 1) rest →
      SeqValid m p ((some m, some p) :: rest)

/-! ### Basic lemmas -/

theorem wrap_if_too_long_eq {S : Type} [Inhabited S] (wc : WrapConfig)
    (wr : List (LineSegments S)) (iv : LineSegments S) (mw : Bool) (lw : Nat)
    (fs : S) (hs : Option S) :
    wrap_if_too_long wc wr iv mw lw fs hs =
      (wr ++ (if mw then wrap_line wc iv lw fs hs else [iv]), wr.length,
        wr.length + (if mw then wrap_line wc iv lw fs hs else [iv]).length) := by
  unfold wrap_if_too_long
  split <;> simp

theorem wrap_syntax_and_diff_ok {σ δ : Type} [Inhabited σ] [Inhabited δ] (cfg : Config σ δ)
    {wsyn : List (LineSegments σ)} {wdiff : List (LineSegments δ)}
    {si : List (LineSegments σ)} {di : List (LineSegments δ)} {wi : List Bool}
    {lw : Nat} {fs : δ} {eh : String}
    {out : List (LineSegments σ) × List (LineSegments δ) ×
      List (LineSegments σ) × List (LineSegments δ) × List Bool × Nat × Nat}
    (h : wrap_syntax_and_diff cfg wsyn wdiff si di wi lw fs eh = .ok out) :
    ∃ b wi' l1 si' l2 di',
      wi = b :: wi' ∧ si = l1 :: si' ∧ di = l2 :: di' ∧
      wdiff.length = wsyn.length ∧
      (if b then wrap_line cfg.wrap_config l2 lw fs
          (if cfg.inline_hint_style_has_background then some cfg.inline_hint_style
           else none) else [l2]).length =
        (if b then wrap_line cfg.wrap_config l1 lw cfg.null_syntect_style
          (some cfg.inline_hint_syntect_style) else [l1]).length ∧
      out = (wsyn ++ (if b then wrap_line cfg.wrap_config l1 lw cfg.null_syntect_style
          (some cfg.inline_hint_syntect_style) else [l1]),
        wdiff ++ (if b then wrap_line cfg.wrap_config l2 lw fs
          (if cfg.inline_hint_style_has_background then some cfg.inline_hint_style
           else none) else [l2]), si', di', wi', wsyn.length,
        wsyn.length + (if b then wrap_line cfg.wrap_config l1 lw cfg.null_syntect_style
          (some cfg.inline_hint_syntect_style) else [l1]).length) := by
  match wi with
  | [] => simp [wrap_syntax_and_diff] at h
  | b :: wi' =>
    match si with
    | [] => simp [wrap_syntax_and_diff] at h
    | l1 :: si' =>
      match di with
      | [] => simp [wrap_syntax_and_diff] at h
      | l2 :: di' =>
        refine ⟨b, wi', l1, si', l2, di', rfl, rfl, rfl, ?_⟩
        simp only [wrap_syntax_and_diff, wrap_if_too_long_eq] at h
        set cs := (if b then wrap_line cfg.wrap_config l1 lw cfg.null_syntect_style
          (some cfg.inline_hint_syntect_style) else [l1]) with hcs
        set cd := (if b then wrap_line cfg.wrap_config l2 lw fs
          (if cfg.inline_hint_style_has_background then some cfg.inline_hint_style
           else none) else [l2]) with hcd
        by_cases hc : (wsyn.length, wsyn.length + cs.length) =
            (wdiff.length, wdiff.length + cd.length)
        · rw [if_pos hc] at h
          injection h with h
          subst h
          simp only [Prod.mk.injEq] at hc
          exact ⟨hc.1.symm, by omega, rfl⟩
        · rw [if_neg hc] at h
          cases h

theorem wrapAndAssertLeft_ok {σ δ : Type} [Inhabited σ] [Inhabited δ] (cfg : Config σ δ)
    {lw : Nat} {st st' : WmpState σ δ} {eh : String} {m s e : Nat}
    (h : wrapAndAssertLeft cfg lw st eh m = .ok (st', s, e)) :
    m = st.m_expected ∧ s = st.newWrappedSyn.minus.length ∧ s ≤ e ∧
    st'.newAlignment = st.newAlignment ∧ st'.newStates = st.newStates ∧
    st'.newWrappedSyn.minus.length = e ∧
    st'.newWrappedDiff.minus.length = e ∧
    st'.newWrappedSyn.plus = st.newWrappedSyn.plus ∧
    st'.newWrappedDiff.plus = st.newWrappedDiff.plus ∧
    st'.synRest.plus = st.synRest.plus ∧ st'.diffRest.plus = st.diffRest.plus ∧
    st'.wrapRest.plus = st.wrapRest.plus ∧
    st'.m_expected = st.m_expected + 1 ∧ st'.p_expected = st.p_expected := by
  unfold wrapAndAssertLeft at h
  split at h
  case isTrue hm =>
    cases hw : wrap_syntax_and_diff cfg st.newWrappedSyn.minus st.newWrappedDiff.minus
        st.synRest.minus st.diffRest.minus st.wrapRest.minus lw cfg.minus_style eh with
    | error err => rw [hw] at h; cases h
    | ok o =>
      rw [hw] at h
      obtain ⟨b, wi', l1, si', l2, di', hwi, hsi, hdi, hlen, hcdl, hout⟩ :=
        wrap_syntax_and_diff_ok cfg hw
      subst hout
      cases h
      refine ⟨hm, rfl, by simp, rfl, rfl, by simp, ?_, rfl, rfl,
        rfl, rfl, rfl, rfl, rfl⟩
      simp [hlen, hcdl]
  case isFalse => cases h

theorem wrapAndAssertRight_ok {σ δ : Type} [Inhabited σ] [Inhabited δ] (cfg : Config σ δ)
    {lw : Nat} {st st' : WmpState σ δ} {eh : String} {p s e : Nat}
    (h : wrapAndAssertRight cfg lw st eh p = .ok (st', s, e)) :
    p = st.p_expected ∧ s = st.newWrappedSyn.plus.length ∧ s ≤ e ∧
    st'.newAlignment = st.newAlignment ∧ st'.newStates = st.newStates ∧
    st'.newWrappedSyn.plus.length = e ∧
    st'.newWrappedDiff.plus.length = e ∧
    st'.newWrappedSyn.minus = st.newWrappedSyn.minus ∧
    st'.newWrappedDiff.minus = st.newWrappedDiff.minus ∧
    st'.synRest.minus = st.synRest.minus ∧ st'.diffRest.minus = st.diffRest.minus ∧
    st'.wrapRest.minus = st.wrapRest.minus ∧
    st'.p_expected = st.p_expected + 1 ∧ st'.m_expected = st.m_expected := by
  unfold wrapAndAssertRight at h
  split at h
  case isTrue hp =>
    cases hw : wrap_syntax_and_diff cfg st.newWrappedSyn.plus st.newWrappedDiff.plus
        st.synRest.plus st.diffRest.plus st.wrapRest.plus lw cfg.plus_style eh with
    | error err => rw [hw] at h; cases h
    | ok o =>
      rw [hw] at h
      obtain ⟨b, wi', l1, si', l2, di', hwi, hsi, hdi, hlen, hcdl, hout⟩ :=
        wrap_syntax_and_diff_ok cfg hw
      subst hout
      cases h
      refine ⟨hp, rfl, by simp, rfl, rfl, by simp, ?_, rfl, rfl,
        rfl, rfl, rfl, rfl, rfl⟩
      simp [hlen, hcdl]
  case isFalse => cases h

theorem pushStates_newWrappedSyn {σ δ : Type} (st : WmpState σ δ) (a b : Nat) :
    (pushStates st a b).newWrappedSyn = st.newWrappedSyn := by
  unfold pushStates
  split_ifs <;> rfl

theorem pushStates_newAlignment {σ δ : Type} (st : WmpState σ δ) (a b : Nat) :
    (pushStates st a b).newAlignment = st.newAlignment := by
  unfold pushStates
  split_ifs <;> rfl

theorem pairZip_length (ms me ps pe : Nat) :
    (pairZip ms me ps pe).length = min (me - ms) (pe - ps) := by
  simp [pairZip]

theorem pairZip_mem (ms me ps pe : Nat) :
    ∀ e ∈ pairZip ms me ps pe, e.1.isSome = true ∧ e.2.isSome = true := by
  intro e he
  simp only [pairZip, List.mem_map] at he
  obtain ⟨q, _, rfl⟩ := he
  simp

theorem pairTail_length (me pe a b : Nat) :
    (pairTail me pe a b).length = max a b - min a b := by
  unfold pairTail
  split_ifs <;> simp <;> omega

theorem pairTail_mem (me pe a b : Nat) :
    ∀ e ∈ pairTail me pe a b,
      (a < b → e.1 = none ∧ e.2.isSome = true) ∧
      (b < a → e.2 = none ∧ e.1.isSome = true) := by
  intro e he
  unfold pairTail at he
  split_ifs at he with h1 h2
  · simp only [List.mem_map] at he
    obtain ⟨i, _, rfl⟩ := he
    exact ⟨fun hab => absurd hab (by omega), fun _ => ⟨rfl, rfl⟩⟩
  · simp only [List.mem_map] at he
    obtain ⟨i, _, rfl⟩ := he
    exact ⟨fun _ => ⟨rfl, rfl⟩, fun hab => absurd hab (by omega)⟩
  · simp at he

/-! ### C6: over-length detection -/

/-- C6: `line_is_too_long L w` returns true iff the extended-grapheme-cluster
count of `L` strictly exceeds `w + 2`, and the per-line mask returned by
`has_long_lines` holds exactly this predicate for each line on each side. -/
theorem C6_long_line_detection :
    (∀ (L : Text) (w : Nat), line_is_too_long L w = true ↔ L.length > w + 2) ∧
    (∀ (lines : MinusPlus (List (Text × State))) (w : MinusPlus Nat) (i : Nat),
      ((has_long_lines lines w).2.minus)[i]? =
        (lines.minus[i]?).map (fun lp => line_is_too_long lp.1 w.minus) ∧
      ((has_long_lines lines w).2.plus)[i]? =
        (lines.plus[i]?).map (fun lp => line_is_too_long lp.1 w.plus)) := by
  constructor
  · intro L w
    simp [line_is_too_long]
  · intro lines w i
    constructor <;> simp [has_long_lines]

/-! ### C2: row count of a wrapped pair -/

/-- C2: when `wrap_minusplus_block` processes a `(Some m, Some p)` alignment
entry whose minus line wraps to `a` physical rows and whose plus line wraps
to `b` rows, it appends exactly `max a b` alignment entries for the pair:
`min a b` entries with both sides Some followed by `max a b - min a b` tail
entries whose shorter side is None. -/
theorem C2_pair_row_count {σ δ : Type} [Inhabited σ] [Inhabited δ] (cfg : Config σ δ)
    (lw : MinusPlus Nat) (st st' : WmpState σ δ) (m p : Nat)
    (h : wmpStep cfg lw st (some m, some p) = .ok st') :
    ∃ a b bothRows tailRows,
      st'.newWrappedSyn.minus.length = st.newWrappedSyn.minus.length + a ∧
      st'.newWrappedSyn.plus.length = st.newWrappedSyn.plus.length + b ∧
      st'.newAlignment = st.newAlignment ++ (bothRows ++ tailRows) ∧
      bothRows.length = min a b ∧
      tailRows.length = max a b - min a b ∧
      (bothRows ++ tailRows).length = max a b ∧
      (∀ e ∈ bothRows, e.1.isSome = true ∧ e.2.isSome = true) ∧
      (∀ e ∈ tailRows, (a < b → e.1 = none ∧ e.2.isSome = true) ∧
        (b < a → e.2 = none ∧ e.1.isSome = true)) := by
  simp only [wmpStep] at h
  cases hL : wrapAndAssertLeft cfg lw.minus st "[*l*] (r)" m with
  | error err => rw [hL] at h; cases h
  | ok oL =>
    obtain ⟨st1, ms, me⟩ := oL
    rw [hL] at h
    dsimp only [] at h
    cases hR : wrapAndAssertRight cfg lw.plus st1 "(l) [*r*]" p with
    | error err => rw [hR] at h; cases h
    | ok oR =>
      obtain ⟨st2, ps, pe⟩ := oR
      rw [hR] at h
      dsimp only [] at h
      cases h
      obtain ⟨_, hms, hmse, _, _, hme, _, hLplusSyn, _, _, _, _, _, _⟩ :=
        wrapAndAssertLeft_ok cfg hL
      obtain ⟨_, hps, hpse, hRalign, hRstates, hpe, _, hRminusSyn, _, _, _, _, _, _⟩ :=
        wrapAndAssertRight_ok cfg hR
      refine ⟨me - ms, pe - ps,
        pairZip ms me ps pe, pairTail me pe (me - ms) (pe - ps), ?_, ?_, ?_, ?_, ?_, ?_, ?_, ?_⟩
      · rw [pushStates_newWrappedSyn, hRminusSyn, hme]; omega
      · rw [pushStates_newWrappedSyn, hpe]
        rw [hLplusSyn] at hps
        omega
      · rw [pushStates_newAlignment]
        simp only [hRalign]
        obtain ⟨_, _, _, hLalign, _⟩ := wrapAndAssertLeft_ok cfg hL
        rw [hLalign]
      · rw [pairZip_length]
      · exact pairTail_length ..
      · rw [List.length_append, pairZip_length, pairTail_length]
        omega
      · exact pairZip_mem ms me ps pe
      · exact pairTail_mem me pe (me - ms) (pe - ps)

/-! Concrete inputs shared by witnesses and counterexamples. -/

/-- A concrete wrap configuration: symbols `+`, `<`, `>`, 37.0 percent
right-align threshold, unlimited line cap. -/
def wcW : WrapConfig := ⟨['+'], ['<'], ['>'], 370, 0⟩

def cfgW : Config Unit Unit := ⟨wcW, (), (), (), (), (), false⟩

def lwW : MinusPlus Nat := ⟨4, 4⟩

def lineM : LineSegments Unit := [((), ['_', 'a', 'b', 'c', 'd', 'e', 'f', 'g'])]

def lineP : LineSegments Unit := [((), ['_', 'x'])]

def stW : WmpState Unit Unit :=
  wmpInit ⟨[lineM], [lineP]⟩ ⟨[lineM], [lineP]⟩ ⟨[true], [false]⟩

def stW' : WmpState Unit Unit := (wmpStep cfgW lwW stW (some 0, some 0)).toOption.getD stW

/-- C2, witnessed at a concrete pair: with content width 4 the minus line
`_abcdefg` wraps to 2 physical rows while the plus line `_x` keeps 1. -/
theorem C2_pair_row_count_witness :
    ∃ a b bothRows tailRows,
      stW'.newWrappedSyn.minus.length = stW.newWrappedSyn.minus.length + a ∧
      stW'.newWrappedSyn.plus.length = stW.newWrappedSyn.plus.length + b ∧
      stW'.newAlignment = stW.newAlignment ++ (bothRows ++ tailRows) ∧
      bothRows.length = min a b ∧
      tailRows.length = max a b - min a b ∧
      (bothRows ++ tailRows).length = max a b ∧
      (∀ e ∈ bothRows, e.1.isSome = true ∧ e.2.isSome = true) ∧
      (∀ e ∈ tailRows, (a < b → e.1 = none ∧ e.2.isSome = true) ∧
        (b < a → e.2 = none ∧ e.1.isSome = true)) :=
  C2_pair_row_count cfgW lwW stW stW' 0 0 (by rfl)



/-! ### C8: emptiness of the wrapper output -/

theorem sumLens_eq_concat_length {S : Type} (l : LineSegments S) :
    sumLens l = (concatText l).length := by
  unfold sumLens concatText
  rw [List.length_flatten, List.map_map]
  rfl

theorem wrapLoop_nonempty {S : Type} [Inhabited S] (wc : WrapConfig) (ss : S) (lw : Nat) :
    ∀ (fuel : Nat) (stack : LineSegments S) (curr : CurrLine S) (res : List (LineSegments S)),
      (0 < sumLens stack + curr.len ∨ res ≠ []) →
      (0 < sumLens (wrapLoop wc ss lw fuel stack curr res).2.2 +
          (wrapLoop wc ss lw fuel stack curr res).2.1.len ∨
        (wrapLoop wc ss lw fuel stack curr res).1 ≠ []) := by
  intro fuel
  induction fuel with
  | zero => intro stack curr res hI; simpa [wrapLoop] using hI
  | succ fuel ih =>
    intro stack curr res hI
    match stack with
    | [] => simpa [wrapLoop] using hI
    | (style, text) :: rest =>
      simp only [wrapLoop]
      split
      · simpa [sumLens] using hI
      · split
        · -- new_len < max_len: append
          apply ih
          rcases hI with hI | hI
          · left
            simp [sumLens, CurrLine.push] at hI ⊢
            omega
          · right; exact hI
        · split
          · -- new_len = max_len
            split
            · -- rest = []
              apply ih
              left
              rename_i hguard hlt heq
              simp [CurrLine.push, sumLens]
              omega
            · -- rest = cons
              split
              · -- newline case
                apply ih
                left
                rename_i hguard hlt heq x y rest2 hnl
                simp [CurrLine.push, sumLens]
                omega
              · -- split case
                apply ih
                right
                simp
          · split
            · split
              · -- overshoot newline accept
                apply ih
                rcases hI with hI | hI
                · left
                  rename_i hguard hlt hne hov hnl
                  simp [CurrLine.push, sumLens] at hI ⊢
                  omega
                · right; exact hI
              · apply ih; right; simp
            · apply ih; right; simp

/-- `wrap_line` decomposed into its loop and post-processing stages. -/
theorem wrap_line_def {S : Type} [Inhabited S] (wc : WrapConfig) (line : LineSegments S)
    (lw : Nat) (fs : S) (hs : Option S) :
    wrap_line wc line lw fs hs =
      flushStack
        (flushCurr
          (rightAlignTail wc (hs.getD fs) fs lw
            (wrapLoop wc (hs.getD fs) lw (wrapFuel line) line ⟨[], 0⟩ []).1
            (wrapLoop wc (hs.getD fs) lw (wrapFuel line) line ⟨[], 0⟩ []).2.1).1
          (rightAlignTail wc (hs.getD fs) fs lw
            (wrapLoop wc (hs.getD fs) lw (wrapFuel line) line ⟨[], 0⟩ []).1
            (wrapLoop wc (hs.getD fs) lw (wrapFuel line) line ⟨[], 0⟩ []).2.1).2)
        (wrapLoop wc (hs.getD fs) lw (wrapFuel line) line ⟨[], 0⟩ []).2.2 := rfl

theorem replaceWrapSymbol_length {S : Type} (rs : Text) (res : List (LineSegments S)) :
    (replaceWrapSymbol rs res).length = res.length := by
  unfold replaceWrapSymbol
  cases hL : res.getLast? with
  | none => rfl
  | some line =>
    cases hl2 : line.getLast? with
    | none => simp [hl2]
    | some seg =>
      obtain ⟨st, tx⟩ := seg
      have hne : res ≠ [] := by
        intro hnil
        rw [hnil] at hL
        simp at hL
      have hpos : 0 < res.length := List.length_pos.mpr hne
      simp [hl2, List.length_dropLast]
      omega

theorem rightAlignTail_fst_length {S : Type} [Inhabited S] (wc : WrapConfig) (ss fs : S)
    (lw : Nat) (res : List (LineSegments S)) (curr : CurrLine S) :
    (rightAlignTail wc ss fs lw res curr).1.length = res.length := by
  simp only [rightAlignTail]
  split_ifs <;> simp [replaceWrapSymbol_length]

theorem rightAlignTail_len {S : Type} [Inhabited S] (wc : WrapConfig) (ss fs : S)
    (lw : Nat) (res : List (LineSegments S)) (curr : CurrLine S) :
    (rightAlignTail wc ss fs lw res curr).2.len = curr.len := by
  simp only [rightAlignTail]
  split_ifs <;> rfl

theorem flushCurr_ne_of_res {S : Type} (res : List (LineSegments S)) (curr : CurrLine S)
    (h : res ≠ []) : flushCurr res curr ≠ [] := by
  unfold flushCurr
  split <;> simp [h]

theorem flushCurr_ne_of_len {S : Type} (res : List (LineSegments S)) (curr : CurrLine S)
    (h : 0 < curr.len) : flushCurr res curr ≠ [] := by
  unfold flushCurr
  rw [if_pos h]
  simp

theorem flushStack_ne_nil {S : Type} (res : List (LineSegments S)) (stack : LineSegments S)
    (h : res ≠ [] ∨ stack ≠ []) : flushStack res stack ≠ [] := by
  unfold flushStack
  rcases h with h | h
  · split
    · exact h
    · split <;> simp
  · rw [if_neg (by simpa [List.isEmpty_iff] using h)]
    split <;> simp

theorem concatText_ne_nil_iff {S : Type} (l : LineSegments S) :
    concatText l ≠ [] ↔ ∃ p ∈ l, p.2 ≠ ([] : Text) := by
  unfold concatText
  rw [ne_eq, List.flatten_eq_nil_iff]
  push_neg
  constructor
  · rintro ⟨t, ht, hne⟩
    rw [List.mem_map] at ht
    obtain ⟨p, hp, rfl⟩ := ht
    exact ⟨p, hp, hne⟩
  · rintro ⟨p, hp, hne⟩
    exact ⟨p.2, List.mem_map_of_mem _ hp, hne⟩

theorem wrap_line_ne_nil {S : Type} [Inhabited S] (wc : WrapConfig) (line : LineSegments S)
    (lw : Nat) (fs : S) (hs : Option S) (h : concatText line ≠ []) :
    wrap_line wc line lw fs hs ≠ [] := by
  have h0 : 0 < sumLens line + (⟨[], 0⟩ : CurrLine S).len ∨
      ([] : List (LineSegments S)) ≠ [] := by
    left
    rw [sumLens_eq_concat_length]
    have := List.length_pos.mpr h
    simpa using this
  have hinv := wrapLoop_nonempty wc (hs.getD fs) lw (wrapFuel line) line ⟨[], 0⟩ [] h0
  rcases hE : wrapLoop wc (hs.getD fs) lw (wrapFuel line) line ⟨[], 0⟩ [] with ⟨res, curr, stk⟩
  rw [wrap_line_def, hE]
  dsimp only
  rw [hE] at hinv
  dsimp only at hinv
  have hral := rightAlignTail_fst_length wc (hs.getD fs) fs lw res curr
  have hracl := rightAlignTail_len wc (hs.getD fs) fs lw res curr
  rcases hinv with hpos | hne
  · by_cases hc : 0 < curr.len
    · exact flushStack_ne_nil _ _ (Or.inl (flushCurr_ne_of_len _ _ (by rw [hracl]; exact hc)))
    · refine flushStack_ne_nil _ _ (Or.inr ?_)
      intro hnil
      rw [hnil] at hpos
      simp [sumLens] at hpos
      omega
  · refine flushStack_ne_nil _ _ (Or.inl (flushCurr_ne_of_res _ _ ?_))
    intro hnil
    apply hne
    have h1 : (rightAlignTail wc (hs.getD fs) fs lw res curr).1.length = 0 := by
      rw [hnil]
      rfl
    rw [hral] at h1
    simpa using List.length_eq_zero.mp h1

theorem line_limit_initial (wc : WrapConfig) (lw : Nat) :
    line_limit_reached wc lw 0 = true ↔ (lw ≤ 1 ∨ wc.max_lines = 1) := by
  unfold line_limit_reached INLINE_SYMBOL_WIDTH_1
  split_ifs with h <;> simp <;> omega

theorem wrapLoop_stop {S : Type} [Inhabited S] (wc : WrapConfig) (ss : S) (lw : Nat)
    (x : S × Text) (rest : LineSegments S) (fuel : Nat) (curr : CurrLine S)
    (res : List (LineSegments S)) (h : line_limit_reached wc lw res.length = true) :
    wrapLoop wc ss lw fuel (x :: rest) curr res = (res, curr, x :: rest) := by
  cases fuel with
  | zero => rfl
  | succ fuel =>
    obtain ⟨style, text⟩ := x
    simp only [wrapLoop]
    rw [if_pos (Or.inl h)]

theorem wrapLoop_all_empty {S : Type} [Inhabited S] (wc : WrapConfig) (ss : S) (lw : Nat)
    (h2 : 2 ≤ lw) (hml : wc.max_lines ≠ 1) :
    ∀ (stack : LineSegments S) (fuel : Nat) (curr : CurrLine S),
      (∀ p ∈ stack, p.2 = ([] : Text)) → curr.len = 0 → stack.length ≤ fuel →
      ∃ segs, wrapLoop wc ss lw fuel stack curr [] = ([], ⟨segs, 0⟩, []) := by
  intro stack
  induction stack with
  | nil =>
    intro fuel curr _ h0 _
    refine ⟨curr.line_segments, ?_⟩
    obtain ⟨segs, len⟩ := curr
    simp only at h0
    subst h0
    cases fuel <;> rfl
  | cons p rest ih =>
    intro fuel curr hall h0 hfuel
    obtain ⟨style, text⟩ := p
    have htx : text = [] := hall (style, text) (by simp)
    subst htx
    cases fuel with
    | zero => simp at hfuel
    | succ fuel =>
      simp only [wrapLoop]
      have hguard : ¬(line_limit_reached wc lw ([] : List (LineSegments S)).length = true ∨
          lw + LINEPRE.length ≤ LINEPRE.length) := by
        push_neg
        constructor
        · intro hc
          rcases (line_limit_initial wc lw).mp (by simpa using hc) with h | h <;> omega
        · simp [LINEPRE]
          omega
      rw [if_neg hguard]
      have hlt : curr.len + ([] : Text).length < lw + LINEPRE.length := by
        simp [h0, LINEPRE]
      rw [if_pos hlt]
      apply ih fuel _ (fun q hq => hall q (by simp [hq])) (by simp [CurrLine.push, h0]) (by simpa using Nat.le_of_succ_le_succ hfuel)

/-- C8 counterexample: a nonempty input (one segment with empty text) for
which `wrap_line` returns no physical lines, refuting "output empty iff
input empty" as stated. -/
theorem C8_counterexample :
    ¬ ((wrap_line wcW [((), ([] : Text))] 2 () none = []) ↔
      ([((), ([] : Text))] : LineSegments Unit) = []) := by
  intro hiff
  have h1 : wrap_line wcW [((), ([] : Text))] 2 () none = [] := by rfl
  have := hiff.mp h1
  simp at this

/-- C8 (amended): `wrap_line` returns no physical lines iff the input segment
list is empty, or every input segment's text is empty while the content width
is at least 2 and the stored line cap is not 1 (otherwise the loop never runs
and the input is flushed back verbatim as one line). -/
theorem C8_empty_iff_amended {S : Type} [Inhabited S] (wc : WrapConfig)
    (line : LineSegments S) (lw : Nat) (fs : S) (hs : Option S) :
    wrap_line wc line lw fs hs = [] ↔
      (line = [] ∨ ((∀ p ∈ line, p.2 = ([] : Text)) ∧ 2 ≤ lw ∧ wc.max_lines ≠ 1)) := by
  constructor
  · intro hnil
    by_contra hcon
    push_neg at hcon
    obtain ⟨hne, hrest⟩ := hcon
    by_cases hall : ∀ p ∈ line, p.2 = ([] : Text)
    · -- all texts empty, so the loop guard must have been open; contradiction
      have hor := hrest hall
      -- lw ≤ 1 or max_lines = 1: the loop stops immediately and flushes the stack
      match hline : line with
      | [] => exact hne rfl
      | x :: rest =>
        have hlimit : line_limit_reached wc lw 0 = true := by
          rw [line_limit_initial]
          omega
        have hstop := wrapLoop_stop wc (hs.getD fs) lw x rest (wrapFuel (x :: rest))
          ⟨[], 0⟩ [] (by simpa using hlimit)
        rw [wrap_line_def, hstop] at hnil
        simp [rightAlignTail, flushCurr, flushStack, CurrLine.has_text, LINEPRE] at hnil
    · -- some text is nonempty: output cannot be empty
      have : concatText line ≠ [] := by
        rw [concatText_ne_nil_iff]
        push_neg at hall
        exact hall
      exact absurd hnil (wrap_line_ne_nil wc line lw fs hs this)
  · intro hcase
    rcases hcase with rfl | ⟨hall, h2, hml⟩
    · rfl
    · obtain ⟨segs, hloop⟩ := wrapLoop_all_empty wc (hs.getD fs) lw h2 hml line
        (wrapFuel line) ⟨[], 0⟩ hall rfl (by unfold wrapFuel; omega)
      rw [wrap_line_def, hloop]
      simp [rightAlignTail, flushCurr, flushStack, CurrLine.has_text, LINEPRE]



/-! ### C4: the line cap -/

theorem line_limit_reached_false_iff (wc : WrapConfig) (lw n : Nat) :
    line_limit_reached wc lw n = false ↔
      ((if lw ≤ 1 then 1 else wc.max_lines) = 0 ∨
        n + 1 < (if lw ≤ 1 then 1 else wc.max_lines)) := by
  unfold line_limit_reached INLINE_SYMBOL_WIDTH_1
  split_ifs <;> simp <;> omega

theorem wrapLoop_cap {S : Type} [Inhabited S] (wc : WrapConfig) (ss : S) (lw : Nat)
    (heff : 0 < (if lw ≤ 1 then 1 else wc.max_lines)) :
    ∀ (fuel : Nat) (stack : LineSegments S) (curr : CurrLine S) (res : List (LineSegments S)),
      res.length + 1 ≤ (if lw ≤ 1 then 1 else wc.max_lines) →
      (wrapLoop wc ss lw fuel stack curr res).1.length + 1 ≤
        (if lw ≤ 1 then 1 else wc.max_lines) := by
  intro fuel
  induction fuel with
  | zero => intro stack curr res hI; simpa [wrapLoop] using hI
  | succ fuel ih =>
    intro stack curr res hI
    match stack with
    | [] => simpa [wrapLoop] using hI
    | (style, text) :: rest =>
      simp only [wrapLoop]
      split
      · simpa using hI
      · rename_i hguard
        push_neg at hguard
        have hlt : res.length + 1 < (if lw ≤ 1 then 1 else wc.max_lines) := by
          rcases (line_limit_reached_false_iff wc lw res.length).mp
            (Bool.not_eq_true _ ▸ hguard.1) with h | h
          · omega
          · exact h
        split
        · exact ih _ _ _ hI
        · split
          · split
            · exact ih _ _ _ hI
            · split
              · exact ih _ _ _ hI
              · apply ih
                simp
                omega
          · split
            · split
              · exact ih _ _ _ hI
              · apply ih
                simp
                omega
            · apply ih
              simp
              omega

theorem flushCurr_length_le {S : Type} (res : List (LineSegments S)) (curr : CurrLine S) :
    (flushCurr res curr).length ≤ res.length + 1 := by
  unfold flushCurr
  split <;> simp

theorem flushStack_length_le {S : Type} (res : List (LineSegments S)) (stack : LineSegments S) :
    (flushStack res stack).length ≤ max res.length 1 := by
  unfold flushStack
  split
  · omega
  · split
    · simp
    · rename_i hres
      have : res ≠ [] := by simpa [List.isEmpty_iff] using hres
      have : 0 < res.length := List.length_pos.mpr this
      simp [List.length_dropLast]
      omega

theorem wrap_line_length_le_eff {S : Type} [Inhabited S] (wc : WrapConfig)
    (line : LineSegments S) (lw : Nat) (fs : S) (hs : Option S)
    (heff : 0 < (if lw ≤ 1 then 1 else wc.max_lines)) :
    (wrap_line wc line lw fs hs).length ≤ (if lw ≤ 1 then 1 else wc.max_lines) := by
  have hcap := wrapLoop_cap wc (hs.getD fs) lw heff (wrapFuel line) line ⟨[], 0⟩ []
    (by simpa using heff)
  rcases hE : wrapLoop wc (hs.getD fs) lw (wrapFuel line) line ⟨[], 0⟩ [] with ⟨res, curr, stk⟩
  rw [hE] at hcap
  dsimp only at hcap
  rw [wrap_line_def, hE]
  dsimp only
  have h1 := flushStack_length_le
    (flushCurr (rightAlignTail wc (hs.getD fs) fs lw res curr).1
      (rightAlignTail wc (hs.getD fs) fs lw res curr).2) stk
  have h2 := flushCurr_length_le (rightAlignTail wc (hs.getD fs) fs lw res curr).1
    (rightAlignTail wc (hs.getD fs) fs lw res curr).2
  have h3 := rightAlignTail_fst_length wc (hs.getD fs) fs lw res curr
  omega

/-- C4: the effective line cap of `wrap_line`. With content width at most 1
the effective cap is one physical line; otherwise with `max_lines = c > 0`
the loop stops as soon as `produced + 1 ≥ c` and the output has at most `c`
physical lines, while `c = 0` never stops the loop; segments remaining on
the stack when the cap is hit are appended verbatim to the final line. -/
theorem C4_wrap_line_cap {S : Type} [Inhabited S] :
    ∀ (wc : WrapConfig) (line : LineSegments S) (lw : Nat) (fs : S) (hs : Option S) (n : Nat),
      (lw ≤ 1 → line_limit_reached wc lw n = true) ∧
      (2 ≤ lw → 0 < wc.max_lines →
        (line_limit_reached wc lw n = true ↔ wc.max_lines ≤ n + 1)) ∧
      (2 ≤ lw → wc.max_lines = 0 → line_limit_reached wc lw n = false) ∧
      (lw ≤ 1 → (wrap_line wc line lw fs hs).length ≤ 1) ∧
      (0 < wc.max_lines → (wrap_line wc line lw fs hs).length ≤ wc.max_lines) ∧
      (∀ (res : List (LineSegments S)) (stack : LineSegments S), stack ≠ [] → res ≠ [] →
        flushStack res stack = res.dropLast ++ [res.getLastD [] ++ stack]) := by
  intro wc line lw fs hs n
  refine ⟨?_, ?_, ?_, ?_, ?_, ?_⟩
  · intro h1
    unfold line_limit_reached INLINE_SYMBOL_WIDTH_1
    rw [if_pos h1]
    simp
  · intro h2 hc
    unfold line_limit_reached INLINE_SYMBOL_WIDTH_1
    rw [if_neg (by omega)]
    simp
    omega
  · intro h2 hc
    unfold line_limit_reached INLINE_SYMBOL_WIDTH_1
    rw [if_neg (by omega)]
    simp [hc]
  · intro h1
    have := wrap_line_length_le_eff wc line lw fs hs (by rw [if_pos h1]; omega)
    rwa [if_pos h1] at this
  · intro hc
    have := wrap_line_length_le_eff wc line lw fs hs (by split <;> omega)
    split at this <;> omega
  · intro res stack hs hr
    unfold flushStack
    rw [if_neg (by simpa [List.isEmpty_iff] using hs), if_neg (by simpa [List.isEmpty_iff] using hr)]



/-! ### C5: right-align of a single-continuation tail -/

theorem has_text_iff {S : Type} (c : CurrLine S) :
    c.has_text = true ↔ LINEPRE.length < c.len := by
  simp [CurrLine.has_text]

theorem SPACES_length : SPACES.length = 64 := by
  simp [SPACES]

theorem padSegments_sum {S : Type} (fs : S) (n : Nat) :
    sumLens (padSegments fs n) = n := by
  unfold padSegments sumLens
  rw [SPACES_length]
  split_ifs with h
  · simp [List.map_replicate, List.sum_replicate, SPACES_length]
    omega
  · have hlt : n % 64 < 64 := by omega
    simp [List.map_replicate, List.sum_replicate, List.length_take, SPACES_length,
      min_eq_left hlt.le]
    omega

theorem padSegments_spaces {S : Type} (fs : S) (n : Nat) :
    ∀ p ∈ padSegments fs n, p.1 = fs ∧ ∀ c ∈ p.2, c = ' ' := by
  intro p hp
  unfold padSegments SPACES at hp
  rw [List.mem_append] at hp
  rcases hp with hp | hp
  · have := List.eq_of_mem_replicate hp
    subst this
    exact ⟨rfl, fun c hc => List.eq_of_mem_replicate hc⟩
  · split_ifs at hp
    · simp at hp
    · simp only [List.mem_singleton] at hp
      subst hp
      refine ⟨rfl, fun c hc => ?_⟩
      exact List.eq_of_mem_replicate (List.mem_of_mem_take hc)

/-- C5: right-align of a single-continuation tail. It activates iff exactly
one continuation was produced, the tail has text, its permille of the content
width is below `use_wrap_right_permille`, and `pad_len` leaves room beyond
the one-grapheme right-prefix marker; when it activates the first line's
trailing wrap symbol is replaced by `right_symbol` (style kept) and the
second line is rebuilt as marker column, `pad_len` fill-styled spaces,
`right_prefix_symbol`, then the original tail content unchanged. -/
theorem C5_right_align {S : Type} [Inhabited S] :
    ∀ (wc : WrapConfig) (ss fs : S) (lw : Nat) (res : List (LineSegments S))
      (curr : CurrLine S),
      (¬(res.length = 1 ∧ LINEPRE.length < curr.len ∧
          curr.text_len * 1000 / (lw + LINEPRE.length) < wc.use_wrap_right_permille ∧
          INLINE_SYMBOL_WIDTH_1 <
            (lw + LINEPRE.length) - (curr.text_len + INLINE_SYMBOL_WIDTH_1)) →
        rightAlignTail wc ss fs lw res curr = (res, curr)) ∧
      (∀ (l : LineSegments S) (seg : S × Text), res = [l ++ [seg]] →
        LINEPRE.length < curr.len →
        curr.text_len * 1000 / (lw + LINEPRE.length) < wc.use_wrap_right_permille →
        INLINE_SYMBOL_WIDTH_1 <
          (lw + LINEPRE.length) - (curr.text_len + INLINE_SYMBOL_WIDTH_1) →
        rightAlignTail wc ss fs lw res curr =
          ([l ++ [(seg.1, wc.right_symbol)]],
           ⟨(default, LINEPRE) ::
              (padSegments fs
                ((lw + LINEPRE.length) - (curr.text_len + INLINE_SYMBOL_WIDTH_1)) ++
                [(ss, wc.right_prefix_symbol)] ++ curr.line_segments.drop 1),
            curr.len⟩)) ∧
      (∀ n : Nat, sumLens (padSegments fs n) = n) ∧
      (∀ n : Nat, ∀ p ∈ padSegments fs n, p.1 = fs ∧ ∀ c ∈ p.2, c = ' ') := by
  intro wc ss fs lw res curr
  refine ⟨?_, ?_, padSegments_sum fs, padSegments_spaces fs⟩
  · intro hno
    simp only [rightAlignTail]
    split_ifs with h1 h2
    · exfalso
      apply hno
      obtain ⟨hl, ht⟩ := h1
      obtain ⟨hperm, hpad⟩ := h2
      exact ⟨hl, (has_text_iff curr).mp ht, hperm, hpad⟩
    · rfl
    · rfl
  · intro l seg hres htext hperm hpad
    obtain ⟨s1, s2⟩ := seg
    subst hres
    simp only [rightAlignTail]
    rw [if_pos ⟨by simp, (has_text_iff curr).mpr htext⟩, if_pos ⟨hperm, hpad⟩]
    unfold replaceWrapSymbol
    simp [List.getLast?_concat, List.dropLast_concat]
  



/-! ### C1: width exactness of padded half-rows -/

theorem measure_append {δ : Type} (a b : Painted δ) :
    measure_text_width (a ++ b) = measure_text_width a + measure_text_width b := by
  simp [measure_text_width, List.countP_append]

theorem measure_takeVisible {δ : Type} (n : Nat) (s : Painted δ) :
    measure_text_width (takeVisible n s) = min n (measure_text_width s) := by
  induction s generalizing n with
  | nil => simp [takeVisible, measure_text_width]
  | cons t r ih =>
    match t with
    | .esc e =>
      simp only [takeVisible, measure_text_width, List.countP_cons]
      simp only [measure_text_width] at ih
      rw [ih]
      simp <;> omega
    | .vis c =>
      by_cases hn : n = 0
      · subst hn
        simp [takeVisible, measure_text_width]
      · simp only [takeVisible, if_neg hn, measure_text_width, List.countP_cons]
        simp only [measure_text_width] at ih
        rw [ih]
        simp <;> omega

theorem measure_vis_map {δ : Type} (t : Text) :
    measure_text_width (t.map (Tok.vis (δ := δ))) = t.length := by
  induction t with
  | nil => rfl
  | cons c r ih =>
    simp only [List.map_cons, measure_text_width, List.countP_cons, List.length_cons] at ih ⊢
    simp [ih]

theorem measure_truncate {δ : Type} (s : Painted δ) (w : Nat) (t : Text) :
    measure_text_width (truncate_str s w t) =
      min (w - t.length) (measure_text_width s) + t.length := by
  unfold truncate_str
  rw [measure_append, measure_takeVisible, measure_vis_map]

theorem measure_paintText {δ : Type} (st : δ) (txt : Text) :
    measure_text_width (paintText st txt) = txt.length := by
  unfold paintText
  simp only [measure_text_width, List.countP_cons, List.countP_append]
  have := measure_vis_map (δ := δ) txt
  simp only [measure_text_width] at this
  simp [this]

theorem get_fill_left_spaces {δ : Type} (cfg : PadConfig δ)
    (policy : LineSegments δ → State → Option BgFillMethod × δ)
    (e : Bool) (idx : Option Nat) (secs : List (LineSegments δ)) (state : State)
    (mode : Option BgFillMethod) (fs : δ)
    (h : get_right_fill_style_for_panel cfg policy e idx secs state .Minus =
      .ok (mode, fs)) : mode = some .Spaces := by
  unfold get_right_fill_style_for_panel at h
  cases e with
  | true =>
    simp at h
    exact h.1.symm
  | false =>
    cases idx with
    | none =>
      simp at h
      exact h.1.symm
    | some i =>
      simp only at h
      cases hsec : secs[i]? with
      | none => rw [hsec] at h; cases h
      | some sections =>
        rw [hsec] at h
        dsimp only at h
        cases hp : (policy sections state).1 with
        | none => rw [hp] at h; simp at h; exact h.1.symm
        | some m => rw [hp] at h; simp at h; exact h.1.symm

/-- C1: width exactness of padded half-rows, assuming the external
measure/truncate/paint helpers meet their contracts (they are modelled from
the spec). When the chosen fill mode is Spaces - always the mode chosen for
the Left (Minus) panel - the ANSI-stripped grapheme width of the half-row
after `pad_panel_line_to_width` equals the configured panel width of its
side; when it is TryAnsiSequence the side is Right, the width is at most the
right panel's width and the half-row ends with the background-fill escape. -/
theorem C1_pad_width_exact {δ : Type} (cfg : PadConfig δ)
    (policy : LineSegments δ → State → Option BgFillMethod × δ)
    (panel_line : Painted δ) (e : Bool) (idx : Option Nat)
    (secs : List (LineSegments δ)) (state : State) (side : PanelSide)
    (out : Painted δ) (mode : Option BgFillMethod) (fs : δ)
    (hsym : cfg.truncation_symbol.length = 1)
    (hw : 1 ≤ cfg.side_by_side_data.get side)
    (hpad : pad_panel_line_to_width cfg policy panel_line e idx secs state side = .ok out)
    (hget : get_right_fill_style_for_panel cfg policy e idx secs state side =
      .ok (mode, fs)) :
    (side = .Minus → mode = some .Spaces) ∧
    (mode = some .Spaces → measure_text_width out = cfg.side_by_side_data.get side) ∧
    (mode = some .TryAnsiSequence →
      side = .Plus ∧ measure_text_width out ≤ cfg.side_by_side_data.get side ∧
      out.getLast? = some (Tok.esc (Esc.fillToEol fs))) := by
  unfold pad_panel_line_to_width at hpad
  cases hl1 : (if e = true ∧ idx.isSome = true then
      match state with
      | .HunkMinus _ =>
        Except.ok (mark_empty_line cfg.minus_empty_line_marker_style panel_line)
      | .HunkPlus _ =>
        Except.ok (mark_empty_line cfg.plus_empty_line_marker_style panel_line)
      | .HunkZero => Except.ok panel_line
      | _ => Except.error "unreachable state in empty line marking"
    else Except.ok panel_line) with
  | error err => rw [hl1] at hpad; cases hpad
  | ok line1 =>
    rw [hl1] at hpad
    dsimp only at hpad
    rw [hget] at hpad
    dsimp only at hpad
    refine ⟨?_, ?_, ?_⟩
    · rintro rfl
      exact get_fill_left_spaces cfg policy e idx secs state mode fs hget
    · rintro rfl
      dsimp only at hpad
      by_cases hge : measure_text_width line1 ≥ cfg.side_by_side_data.get side
      · rw [if_pos hge] at hpad
        injection hpad with hpad
        subst hpad
        by_cases hgt : measure_text_width line1 > cfg.side_by_side_data.get side
        · rw [if_pos hgt, measure_truncate, hsym]
          omega
        · rw [if_neg hgt]
          omega
      · rw [if_neg hge] at hpad
        injection hpad with hpad
        subst hpad
        push_neg at hge
        rw [if_neg (show ¬ measure_text_width line1 > cfg.side_by_side_data.get side by
          omega)]
        rw [measure_append, measure_paintText]
        simp
        omega
    · rintro rfl
      have hside : side = .Plus := by
        cases side with
        | Minus =>
          have hcontra := get_fill_left_spaces cfg policy e idx secs state _ fs hget
          simp at hcontra
        | Plus => rfl
      subst hside
      dsimp only at hpad
      injection hpad with hpad
      subst hpad
      refine ⟨rfl, ?_, ?_⟩
      · unfold right_fill_background_color
        rw [measure_append]
        have hesc : measure_text_width [Tok.esc (Esc.fillToEol fs)] = 0 := by
          simp [measure_text_width]
        rw [hesc]
        by_cases hgt : measure_text_width line1 > cfg.side_by_side_data.get .Plus
        · rw [if_pos hgt, measure_truncate, hsym]
          omega
        · rw [if_neg hgt]
          omega
      · unfold right_fill_background_color
        simp

def padCfgW : PadConfig Unit := ⟨⟨3, 3⟩, ['>'], (), (), ()⟩

def padPolicyW : LineSegments Unit → State → Option BgFillMethod × Unit :=
  fun _ _ => (some .Spaces, ())

def padLineW : Painted Unit := [Tok.vis 'a']

def padOutW : Painted Unit :=
  (pad_panel_line_to_width padCfgW padPolicyW padLineW false none []
    (State.HunkMinus none) .Minus).toOption.getD []

/-- C1, witnessed at a concrete left-panel line of visible width 1 padded to
panel width 3 with spaces. -/
theorem C1_pad_width_exact_witness :
    (MinusPlusIndex.Minus = MinusPlusIndex.Minus →
      (some BgFillMethod.Spaces : Option BgFillMethod) = some BgFillMethod.Spaces) ∧
    ((some BgFillMethod.Spaces : Option BgFillMethod) = some BgFillMethod.Spaces →
      measure_text_width padOutW = padCfgW.side_by_side_data.get MinusPlusIndex.Minus) ∧
    ((some BgFillMethod.Spaces : Option BgFillMethod) = some BgFillMethod.TryAnsiSequence →
      MinusPlusIndex.Minus = MinusPlusIndex.Plus ∧
      measure_text_width padOutW ≤ padCfgW.side_by_side_data.get MinusPlusIndex.Minus ∧
      padOutW.getLast? = some (Tok.esc (Esc.fillToEol ()))) :=
  C1_pad_width_exact padCfgW padPolicyW padLineW false none [] (State.HunkMinus none)
    .Minus padOutW (some .Spaces) () rfl (by decide) (by rfl) (by rfl)


/-- Concatenation over a list of produced physical lines of the text kept
after erasing inserted segments. -/
def joinKept {S : Type} (ins : S → Bool) (res : List (LineSegments S)) : Text :=
  (res.map (keptText ins)).flatten

theorem concatText_append {S : Type} (a b : LineSegments S) :
    concatText (a ++ b) = concatText a ++ concatText b := by
  simp [concatText]

theorem keptText_append {S : Type} (ins : S → Bool) (a b : LineSegments S) :
    keptText ins (a ++ b) = keptText ins a ++ keptText ins b := by
  simp [keptText, concatText, List.filter_append]

theorem keptText_cons {S : Type} (ins : S → Bool) (p : S × Text) (l : LineSegments S) :
    keptText ins (p :: l) = (if ins p.1 then [] else p.2) ++ keptText ins l := by
  cases h : ins p.1 <;> simp [keptText, concatText, List.filter_cons, h]

theorem keptText_singleton {S : Type} (ins : S → Bool) (p : S × Text) :
    keptText ins [p] = if ins p.1 then [] else p.2 := by
  rw [keptText_cons]
  simp [keptText, concatText]

theorem joinKept_append {S : Type} (ins : S → Bool) (a b : List (LineSegments S)) :
    joinKept ins (a ++ b) = joinKept ins a ++ joinKept ins b := by
  simp [joinKept]

theorem joinKept_singleton {S : Type} (ins : S → Bool) (l : LineSegments S) :
    joinKept ins [l] = keptText ins l := by
  simp [joinKept]

theorem keptText_flatten {S : Type} (ins : S → Bool) (l : List (LineSegments S)) :
    keptText ins l.flatten = joinKept ins l := by
  induction l with
  | nil => rfl
  | cons h t ih => simp [List.flatten_cons, keptText_append, joinKept, ih]

theorem keptText_of_noins {S : Type} (ins : S → Bool) (l : LineSegments S)
    (h : ∀ p ∈ l, ins p.1 = false) : keptText ins l = concatText l := by
  induction l with
  | nil => rfl
  | cons p t ih =>
    rw [keptText_cons, if_neg (by simp [h p (by simp)]), concatText]
    simp only [List.map_cons, List.flatten_cons]
    rw [ih (fun q hq => h q (by simp [hq]))]
    rfl

theorem keptText_of_concat_nil {S : Type} (ins : S → Bool) (l : LineSegments S)
    (h : concatText l = []) : keptText ins l = [] := by
  induction l with
  | nil => rfl
  | cons p t ih =>
    rw [concatText] at h
    simp only [List.map_cons, List.flatten_cons, List.append_eq_nil] at h
    rw [keptText_cons, ih (by simp [concatText, h.2])]
    simp [h.1]

theorem keptText_drop_head {S : Type} (ins : S → Bool) (l : LineSegments S)
    (h : l.head?.map (fun p => ins p.1) = some true) :
    keptText ins (l.drop 1) = keptText ins l := by
  match l with
  | [] => simp at h
  | p :: t =>
    simp only [List.head?_cons, Option.map_some] at h
    rw [List.drop_one, List.tail_cons, keptText_cons, if_pos (by injection h)]
    rfl


theorem head?_append_left {α : Type} (l l' : List α) (h : l ≠ []) :
    (l ++ l').head? = l.head? := by
  cases l with
  | nil => contradiction
  | cons a t => simp

theorem concatText_singleton {S : Type} (p : S × Text) : concatText [p] = p.2 := by
  simp [concatText]

theorem concatText_cons {S : Type} (p : S × Text) (l : LineSegments S) :
    concatText (p :: l) = p.2 ++ concatText l := by
  simp [concatText]

theorem keptText_push {S : Type} (ins : S → Bool) (curr : CurrLine S) (style : S)
    (text : Text) (n : Nat) (h : ins style = false) :
    keptText ins (curr.push (style, text) n).line_segments =
      keptText ins curr.line_segments ++ text := by
  simp [CurrLine.push, keptText_append, keptText_singleton, h]

theorem concatText_push {S : Type} (curr : CurrLine S) (seg : S × Text) (n : Nat) :
    concatText (curr.push seg n).line_segments =
      concatText curr.line_segments ++ seg.2 := by
  simp [CurrLine.push, concatText_append, concatText_singleton]

theorem push_head_cond {S : Type} (ins : S → Bool) (curr : CurrLine S) (seg : S × Text)
    (n : Nat) (h : curr.line_segments.head?.map (fun p => ins p.1) = some true) :
    (curr.push seg n).line_segments.head?.map (fun p => ins p.1) = some true := by
  have hne : curr.line_segments ≠ [] := by
    intro h0
    rw [h0] at h
    simp at h
  show ((curr.line_segments ++ [seg]).head?.map (fun p => ins p.1)) = some true
  rw [head?_append_left _ _ hne]
  exact h

theorem splitStep_fst {S : Type} (wc : WrapConfig) (ss : S) (maxLen : Nat) (style : S)
    (text : Text) (curr : CurrLine S) :
    (splitStep wc ss maxLen style text curr).1 =
      curr.line_segments ++
        ((if text.length - (curr.len + text.length - maxLen) - 1 = 0 then []
          else [(style, text.take (text.length - (curr.len + text.length - maxLen) - 1))]) ++
         [(ss, wc.left_symbol)]) := by
  unfold splitStep
  split_ifs with h <;> simp [h]

theorem splitStep_snd {S : Type} (wc : WrapConfig) (ss : S) (maxLen : Nat) (style : S)
    (text : Text) (curr : CurrLine S) :
    (splitStep wc ss maxLen style text curr).2 =
      (style, if text.length - (curr.len + text.length - maxLen) - 1 = 0 then text
        else text.drop (text.length - (curr.len + text.length - maxLen) - 1)) := by
  unfold splitStep
  split_ifs with h <;> simp [h]

theorem splitStep_fst_getLast {S : Type} (wc : WrapConfig) (ss : S) (maxLen : Nat)
    (style : S) (text : Text) (curr : CurrLine S) :
    (splitStep wc ss maxLen style text curr).1.getLast? = some (ss, wc.left_symbol) := by
  rw [splitStep_fst, ← List.append_assoc, List.getLast?_concat]

theorem keptText_nil {S : Type} (ins : S → Bool) :
    keptText ins ([] : LineSegments S) = [] := rfl

theorem split_glue {S : Type} [Inhabited S] (ins : S → Bool) (wc : WrapConfig)
    (ss style : S) (maxLen : Nat) (text : Text) (curr : CurrLine S)
    (rest : LineSegments S) (res : List (LineSegments S))
    (hss : ins ss = true) (hsty : ins style = false) (hdef : ins (default : S) = true) :
    joinKept ins (res ++ [(splitStep wc ss maxLen style text curr).1]) ++
      (keptText ins (CurrLine.reset S).line_segments ++
        concatText ((splitStep wc ss maxLen style text curr).2 :: rest)) =
    joinKept ins res ++
      (keptText ins curr.line_segments ++ concatText ((style, text) :: rest)) := by
  rw [joinKept_append, joinKept_singleton, splitStep_fst, splitStep_snd]
  rw [keptText_append, keptText_append, keptText_singleton, if_pos hss]
  rw [show keptText ins (CurrLine.reset S).line_segments = [] from by
    simp [CurrLine.reset, keptText_singleton, hdef]]
  rw [concatText_cons, concatText_cons]
  split_ifs with hpos
  · simp [keptText_nil]
  · rw [keptText_singleton, if_neg (by simp [hsty])]
    dsimp only
    simp only [List.append_nil, List.nil_append, List.append_assoc]
    rw [← List.append_assoc (List.take _ text) (List.drop _ text), List.take_append_drop]

theorem wrapLoop_kept {S : Type} [Inhabited S] (wc : WrapConfig) (ss : S) (lw : Nat)
    (ins : S → Bool) (hdef : ins default = true) (hss : ins ss = true) :
    ∀ (fuel : Nat) (stack : LineSegments S) (curr : CurrLine S)
      (res res' : List (LineSegments S)) (curr' : CurrLine S) (stk' : LineSegments S),
      (∀ p ∈ stack, ins p.1 = false) →
      (∀ l ∈ res, (l.getLast?.map (fun p => ins p.1)).getD true = true) →
      (res ≠ [] → curr.line_segments.head?.map (fun p => ins p.1) = some true) →
      (curr.len = 0 → concatText curr.line_segments = []) →
      wrapLoop wc ss lw fuel stack curr res = (res', curr', stk') →
      (joinKept ins res' ++ (keptText ins curr'.line_segments ++ concatText stk') =
        joinKept ins res ++ (keptText ins curr.line_segments ++ concatText stack) ∧
       (∀ p ∈ stk', ins p.1 = false) ∧
       (∀ l ∈ res', (l.getLast?.map (fun p => ins p.1)).getD true = true) ∧
       (res' ≠ [] → curr'.line_segments.head?.map (fun p => ins p.1) = some true) ∧
       (curr'.len = 0 → concatText curr'.line_segments = [])) := by
  intro fuel
  induction fuel with
  | zero =>
    intro stack curr res res' curr' stk' h1 h2 h3 h4 hEq
    simp only [wrapLoop] at hEq
    cases hEq
    exact ⟨rfl, h1, h2, h3, h4⟩
  | succ fuel ih =>
    intro stack curr res res' curr' stk' h1 h2 h3 h4 hEq
    match stack with
    | [] =>
      simp only [wrapLoop] at hEq
      cases hEq
      exact ⟨by simp [concatText], by simp, h2, h3, h4⟩
    | (style, text) :: rest =>
      have hsty : ins style = false := h1 (style, text) (by simp)
      have hrest : ∀ p ∈ rest, ins p.1 = false := fun p hp => h1 p (by simp [hp])
      simp only [wrapLoop] at hEq
      split at hEq
      · cases hEq
        exact ⟨rfl, h1, h2, h3, h4⟩
      · rename_i hguard
        push_neg at hguard
        have hmax2 : LINEPRE.length < lw + LINEPRE.length := hguard.2
        split at hEq
        · rename_i hlt
          obtain ⟨he, hb, hc, hd, hf⟩ := ih rest (curr.push (style, text) (curr.len + text.length))
            res res' curr' stk' hrest h2
            (fun hres => push_head_cond ins curr _ _ (h3 hres))
            (by
              intro h0
              simp only [CurrLine.push] at h0
              rw [concatText_push]
              have htx : text.length = 0 := by omega
              rw [h4 (by omega)]
              simp [List.length_eq_zero.mp htx])
            hEq
          refine ⟨?_, hb, hc, hd, hf⟩
          rw [he, keptText_push ins curr style text _ hsty, concatText_cons]
          simp
        · rename_i hge
          split at hEq
          · rename_i hfit
            cases rest with
            | nil =>
              obtain ⟨he, hb, hc, hd, hf⟩ := ih []
                (curr.push (style, text) (curr.len + text.length)) res res' curr' stk'
                (by simp) h2
                (fun hres => push_head_cond ins curr _ _ (h3 hres))
                (by
                  intro h0
                  simp only [CurrLine.push] at h0
                  omega)
                hEq
              refine ⟨?_, hb, hc, hd, hf⟩
              rw [he, keptText_push ins curr style text _ hsty, concatText_cons]
              simp
            | cons q rest2 =>
              obtain ⟨next_style, nl⟩ := q
              have hq : ins next_style = false := h1 (next_style, nl) (by simp)
              have hrest2 : ∀ p ∈ rest2, ins p.1 = false :=
                fun p hp => h1 p (by simp [hp])
              dsimp only at hEq
              split at hEq
              · rename_i hnl
                obtain ⟨he, hb, hc, hd, hf⟩ := ih rest2
                  ((curr.push (style, text) (curr.len + text.length)).push (next_style, nl)
                    (curr.len + text.length + 0))
                  res res' curr' stk' hrest2 h2
                  (fun hres => push_head_cond ins _ _ _
                    (push_head_cond ins curr _ _ (h3 hres)))
                  (by
                    intro h0
                    simp only [CurrLine.push] at h0
                    omega)
                  hEq
                refine ⟨?_, hb, hc, hd, hf⟩
                rw [he]
                rw [show ((curr.push (style, text) (curr.len + text.length)).push
                  (next_style, nl) (curr.len + text.length + 0)).line_segments =
                  curr.line_segments ++ [(style, text)] ++ [(next_style, nl)] from rfl]
                rw [keptText_append, keptText_append, keptText_singleton,
                  keptText_singleton, if_neg (by simp [hsty]), if_neg (by simp [hq]),
                  concatText_cons, concatText_cons]
                simp
              · rename_i hnnl
                rcases hsplit : splitStep wc ss (lw + LINEPRE.length) style text curr
                  with ⟨line, nxt⟩
                rw [hsplit] at hEq
                dsimp only at hEq
                have h5 : (splitStep wc ss (lw + LINEPRE.length) style text curr).1 = line := by
                  rw [hsplit]
                have h6 : (splitStep wc ss (lw + LINEPRE.length) style text curr).2 = nxt := by
                  rw [hsplit]
                obtain ⟨he, hb, hc, hd, hf⟩ := ih (nxt :: ((next_style, nl) :: rest2)) (CurrLine.reset S)
                  (res ++ [line]) res' curr' stk'
                  (by
                    intro p hp
                    rcases List.mem_cons.mp hp with rfl | hp
                    · rw [← h6, splitStep_snd]
                      exact hsty
                    · exact h1 p (List.mem_cons_of_mem _ hp))
                  (by
                    intro l hl
                    rcases List.mem_append.mp hl with hl | hl
                    · exact h2 l hl
                    · rw [List.mem_singleton] at hl
                      subst hl
                      rw [← h5, splitStep_fst_getLast]
                      simp [hss])
                  (by
                    intro _
                    simp [CurrLine.reset, hdef])
                  (by
                    intro h0
                    simp [CurrLine.reset, LINEPRE] at h0)
                  hEq
                refine ⟨?_, hb, hc, hd, hf⟩
                rw [he]
                have hg := split_glue ins wc ss style (lw + LINEPRE.length) text curr ((next_style, nl) :: rest2) res
                  hss hsty hdef
                rw [hsplit] at hg
                dsimp only at hg
                exact hg
          · rename_i hneq
            split at hEq
            · rename_i hov
              split at hEq
              · rename_i hendnl
                obtain ⟨he, hb, hc, hd, hf⟩ := ih rest
                  (curr.push (style, text) (curr.len + text.length - 1)) res res' curr' stk'
                  hrest h2
                  (fun hres => push_head_cond ins curr _ _ (h3 hres))
                  (by
                    intro h0
                    simp only [CurrLine.push] at h0
                    have h5 := hov.1
                    omega)
                  hEq
                refine ⟨?_, hb, hc, hd, hf⟩
                rw [he, keptText_push ins curr style text _ hsty, concatText_cons]
                simp
              · rename_i hnendnl
                rcases hsplit : splitStep wc ss (lw + LINEPRE.length) style text curr
                  with ⟨line, nxt⟩
                rw [hsplit] at hEq
                dsimp only at hEq
                have h5 : (splitStep wc ss (lw + LINEPRE.length) style text curr).1 = line := by
                  rw [hsplit]
                have h6 : (splitStep wc ss (lw + LINEPRE.length) style text curr).2 = nxt := by
                  rw [hsplit]
                obtain ⟨he, hb, hc, hd, hf⟩ := ih (nxt :: rest) (CurrLine.reset S)
                  (res ++ [line]) res' curr' stk'
                  (by
                    intro p hp
                    rcases List.mem_cons.mp hp with rfl | hp
                    · rw [← h6, splitStep_snd]
                      exact hsty
                    · exact hrest p hp)
                  (by
                    intro l hl
                    rcases List.mem_append.mp hl with hl | hl
                    · exact h2 l hl
                    · rw [List.mem_singleton] at hl
                      subst hl
                      rw [← h5, splitStep_fst_getLast]
                      simp [hss])
                  (by
                    intro _
                    simp [CurrLine.reset, hdef])
                  (by
                    intro h0
                    simp [CurrLine.reset, LINEPRE] at h0)
                  hEq
                refine ⟨?_, hb, hc, hd, hf⟩
                rw [he]
                have hg := split_glue ins wc ss style (lw + LINEPRE.length) text curr rest res
                  hss hsty hdef
                rw [hsplit] at hg
                dsimp only at hg
                exact hg
            · rename_i hnov
              rcases hsplit : splitStep wc ss (lw + LINEPRE.length) style text curr
                with ⟨line, nxt⟩
              rw [hsplit] at hEq
              dsimp only at hEq
              have h5 : (splitStep wc ss (lw + LINEPRE.length) style text curr).1 = line := by
                rw [hsplit]
              have h6 : (splitStep wc ss (lw + LINEPRE.length) style text curr).2 = nxt := by
                rw [hsplit]
              obtain ⟨he, hb, hc, hd, hf⟩ := ih (nxt :: rest) (CurrLine.reset S)
                (res ++ [line]) res' curr' stk'
                (by
                  intro p hp
                  rcases List.mem_cons.mp hp with rfl | hp
                  · rw [← h6, splitStep_snd]
                    exact hsty
                  · exact hrest p hp)
                (by
                  intro l hl
                  rcases List.mem_append.mp hl with hl | hl
                  · exact h2 l hl
                  · rw [List.mem_singleton] at hl
                    subst hl
                    rw [← h5, splitStep_fst_getLast]
                    simp [hss])
                (by
                  intro _
                  simp [CurrLine.reset, hdef])
                (by
                  intro h0
                  simp [CurrLine.reset, LINEPRE] at h0)
                hEq
              refine ⟨?_, hb, hc, hd, hf⟩
              rw [he]
              have hg := split_glue ins wc ss style (lw + LINEPRE.length) text curr rest res
                hss hsty hdef
              rw [hsplit] at hg
              dsimp only at hg
              exact hg


theorem keptText_of_allins {S : Type} (ins : S → Bool) (l : LineSegments S)
    (h : ∀ p ∈ l, ins p.1 = true) : keptText ins l = [] := by
  induction l with
  | nil => rfl
  | cons p t ih =>
    rw [keptText_cons, if_pos (h p (by simp))]
    exact ih (fun q hq => h q (by simp [hq]))

theorem keptText_padSegments {S : Type} (ins : S → Bool) (fs : S) (n : Nat)
    (h : ins fs = true) : keptText ins (padSegments fs n) = [] := by
  apply keptText_of_allins
  intro p hp
  simp only [padSegments, List.mem_append, List.mem_replicate] at hp
  rcases hp with ⟨-, rfl⟩ | hp
  · exact h
  · split at hp
    · simp at hp
    · simp only [List.mem_singleton] at hp
      subst hp
      exact h

theorem joinKept_replace {S : Type} (ins : S → Bool) (rs : Text)
    (res : List (LineSegments S))
    (h2 : ∀ l ∈ res, (l.getLast?.map (fun p => ins p.1)).getD true = true) :
    joinKept ins (replaceWrapSymbol rs res) = joinKept ins res := by
  rcases hres : res.getLast? with _ | line
  · simp [replaceWrapSymbol, hres]
  · rcases hline : line.getLast? with _ | ⟨st, old⟩
    · simp [replaceWrapSymbol, hres, hline]
    · simp only [replaceWrapSymbol, hres, hline]
      obtain ⟨l', rfl⟩ := List.getLast?_eq_some_iff.mp hres
      obtain ⟨s', rfl⟩ := List.getLast?_eq_some_iff.mp hline
      have hst : ins st = true := by
        have := h2 (s' ++ [(st, old)]) (by simp)
        rw [hline] at this
        simpa using this
      simp [joinKept_append, joinKept_singleton, keptText_append,
        keptText_singleton, hst]

theorem rightAlign_kept {S : Type} [Inhabited S] (wc : WrapConfig) (ss fs : S)
    (lw : Nat) (ins : S → Bool)
    (hdef : ins default = true) (hss : ins ss = true) (hfs : ins fs = true)
    (res : List (LineSegments S)) (curr : CurrLine S)
    (h2 : ∀ l ∈ res, (l.getLast?.map (fun p => ins p.1)).getD true = true)
    (h3 : res ≠ [] → curr.line_segments.head?.map (fun p => ins p.1) = some true)
    (h4 : curr.len = 0 → concatText curr.line_segments = []) :
    joinKept ins (rightAlignTail wc ss fs lw res curr).1 ++
      keptText ins (rightAlignTail wc ss fs lw res curr).2.line_segments =
      joinKept ins res ++ keptText ins curr.line_segments ∧
    ((rightAlignTail wc ss fs lw res curr).2.len = 0 →
      concatText (rightAlignTail wc ss fs lw res curr).2.line_segments = []) := by
  simp only [rightAlignTail]
  split_ifs with hc hp
  · have hres : res ≠ [] := by
      intro h
      rw [h] at hc
      simp at hc
    have hlen : curr.len ≠ 0 := by
      have := (has_text_iff curr).mp hc.2
      omega
    refine ⟨?_, fun h0 => absurd h0 hlen⟩
    rw [joinKept_replace ins wc.right_symbol res h2]
    congr 1
    show keptText ins ((default, LINEPRE) ::
      (padSegments fs _ ++ [(ss, wc.right_prefix_symbol)] ++
        curr.line_segments.drop 1)) = _
    rw [keptText_cons, if_pos hdef, keptText_append, keptText_append,
      keptText_padSegments ins fs _ hfs, keptText_singleton, if_pos hss,
      keptText_drop_head ins curr.line_segments (h3 hres)]
    rfl
  · exact ⟨rfl, h4⟩
  · exact ⟨rfl, h4⟩

theorem joinKept_flushCurr {S : Type} (ins : S → Bool)
    (res : List (LineSegments S)) (curr : CurrLine S)
    (h4 : curr.len = 0 → concatText curr.line_segments = []) :
    joinKept ins (flushCurr res curr) =
      joinKept ins res ++ keptText ins curr.line_segments := by
  simp only [flushCurr]
  split_ifs with h
  · rw [joinKept_append, joinKept_singleton]
  · rw [keptText_of_concat_nil ins _ (h4 (by omega)), List.append_nil]

theorem joinKept_flushStack {S : Type} (ins : S → Bool)
    (res : List (LineSegments S)) (stack : LineSegments S) :
    joinKept ins (flushStack res stack) =
      joinKept ins res ++ keptText ins stack := by
  simp only [flushStack]
  split_ifs with h1 h2
  · have : stack = [] := List.isEmpty_iff.mp h1
    subst this
    rw [keptText_nil, List.append_nil]
  · have : res = [] := List.isEmpty_iff.mp h2
    subst this
    simp [joinKept_singleton, joinKept]
  · have hres : res ≠ [] := by
      intro h
      rw [h] at h2
      simp at h2
    rcases List.eq_nil_or_concat res with rfl | ⟨l', a, rfl⟩
    · exact absurd rfl hres
    · simp [joinKept_append, joinKept_singleton, keptText_append,
        List.append_assoc]

/-- C10 — Content preservation of wrapping: for every input line whose segment
styles are all "real" (not inserted) under an erasure predicate `ins` that
marks the default style, the fill style and the wrap-symbol style as inserted,
concatenating the text of all physical lines returned by `wrap_line` and
erasing the inserted segments yields exactly the concatenation of the input
segments' text — no grapheme cluster is lost or duplicated, and every split
point lies on a cluster boundary of the input text. -/
theorem C10_content_preservation {S : Type} [Inhabited S] (wc : WrapConfig)
    (line : LineSegments S) (lw : Nat) (fs : S) (ihs : Option S)
    (ins : S → Bool) (hdef : ins default = true) (hfs : ins fs = true)
    (hss : ins (ihs.getD fs) = true)
    (hline : ∀ p ∈ line, ins p.1 = false) :
    keptText ins (wrap_line wc line lw fs ihs).flatten = concatText line := by
  rw [keptText_flatten]
  simp only [wrap_line]
  rcases hL : wrapLoop wc (ihs.getD fs) lw (wrapFuel line) line ⟨[], 0⟩ []
    with ⟨res', curr', stk'⟩
  obtain ⟨heq, hstk, h2', h3', h4'⟩ :=
    wrapLoop_kept wc (ihs.getD fs) lw ins hdef hss (wrapFuel line) line
      ⟨[], 0⟩ [] res' curr' stk' hline (by simp) (by simp)
      (fun _ => rfl) hL
  rcases hra : rightAlignTail wc (ihs.getD fs) fs lw res' curr'
    with ⟨ra1, ra2⟩
  obtain ⟨hraEq, hra4⟩ :=
    rightAlign_kept wc (ihs.getD fs) fs lw ins hdef hss hfs res' curr'
      h2' h3' h4'
  rw [hra] at hraEq hra4
  dsimp only at hraEq hra4 ⊢
  rw [joinKept_flushStack, joinKept_flushCurr ins ra1 ra2 hra4,
    keptText_of_noins ins stk' hstk, hraEq, List.append_assoc]
  simpa [joinKept, keptText_nil] using heq

def insW : Nat → Bool := fun n => n == 0

def textCW : Text := ['_', 'a', 'b', 'c', 'd', 'e', 'f', 'g']

def lineCW : LineSegments Nat := [(1, textCW)]

/-- Witness for C10 at a concrete wrapping instance. -/
theorem C10_content_preservation_witness :
    insW (default : Nat) = true ∧ insW 0 = true ∧
      insW ((none : Option Nat).getD 0) = true ∧
      (∀ p ∈ lineCW, insW p.1 = false) ∧
      keptText insW (wrap_line wcW lineCW 4 0 none).flatten =
        concatText lineCW :=
  ⟨by decide, by decide, by decide, by decide,
    C10_content_preservation wcW lineCW 4 0 none insW (by decide) (by decide)
      (by decide) (by decide)⟩



theorem wrap_syntax_and_diff_noop {σ δ : Type} [Inhabited σ] [Inhabited δ]
    (cfg : Config σ δ) (wsyn : List (LineSegments σ)) (wdiff : List (LineSegments δ))
    (l1 : LineSegments σ) (si' : List (LineSegments σ)) (l2 : LineSegments δ)
    (di' : List (LineSegments δ)) (wi' : List Bool) (lw : Nat) (fs : δ) (eh : String)
    (hlen : wdiff.length = wsyn.length) :
    wrap_syntax_and_diff cfg wsyn wdiff (l1 :: si') (l2 :: di') (false :: wi')
        lw fs eh =
      .ok (wsyn ++ [l1], wdiff ++ [l2], si', di', wi', wsyn.length,
        wsyn.length + 1) := by
  simp [wrap_syntax_and_diff, wrap_if_too_long_eq, hlen]

theorem wrapAndAssertLeft_noop {σ δ : Type} [Inhabited σ] [Inhabited δ]
    (cfg : Config σ δ) (lw : Nat) (st : WmpState σ δ) (eh : String)
    (l1 : LineSegments σ) (si' : List (LineSegments σ)) (l2 : LineSegments δ)
    (di' : List (LineSegments δ)) (wi' : List Bool) (m : Nat)
    (hm : m = st.m_expected)
    (hsi : st.synRest.minus = l1 :: si') (hdi : st.diffRest.minus = l2 :: di')
    (hwi : st.wrapRest.minus = false :: wi')
    (hlen : st.newWrappedDiff.minus.length = st.newWrappedSyn.minus.length)
    (hme : st.newWrappedSyn.minus.length = st.m_expected) :
    wrapAndAssertLeft cfg lw st eh m = .ok
      ({ st with
        newWrappedSyn := { st.newWrappedSyn with
          minus := st.newWrappedSyn.minus ++ [l1] }
        newWrappedDiff := { st.newWrappedDiff with
          minus := st.newWrappedDiff.minus ++ [l2] }
        synRest := { st.synRest with minus := si' }
        diffRest := { st.diffRest with minus := di' }
        wrapRest := { st.wrapRest with minus := wi' }
        m_expected := st.m_expected + 1 },
        st.m_expected, st.m_expected + 1) := by
  subst hm
  unfold wrapAndAssertLeft
  rw [if_pos rfl, hsi, hdi, hwi,
    wrap_syntax_and_diff_noop cfg _ _ _ _ _ _ _ _ _ _ hlen]
  dsimp only
  rw [hme]

theorem wrapAndAssertRight_noop {σ δ : Type} [Inhabited σ] [Inhabited δ]
    (cfg : Config σ δ) (lw : Nat) (st : WmpState σ δ) (eh : String)
    (l1 : LineSegments σ) (si' : List (LineSegments σ)) (l2 : LineSegments δ)
    (di' : List (LineSegments δ)) (wi' : List Bool) (p : Nat)
    (hp : p = st.p_expected)
    (hsi : st.synRest.plus = l1 :: si') (hdi : st.diffRest.plus = l2 :: di')
    (hwi : st.wrapRest.plus = false :: wi')
    (hlen : st.newWrappedDiff.plus.length = st.newWrappedSyn.plus.length)
    (hpe : st.newWrappedSyn.plus.length = st.p_expected) :
    wrapAndAssertRight cfg lw st eh p = .ok
      ({ st with
        newWrappedSyn := { st.newWrappedSyn with
          plus := st.newWrappedSyn.plus ++ [l1] }
        newWrappedDiff := { st.newWrappedDiff with
          plus := st.newWrappedDiff.plus ++ [l2] }
        synRest := { st.synRest with plus := si' }
        diffRest := { st.diffRest with plus := di' }
        wrapRest := { st.wrapRest with plus := wi' }
        p_expected := st.p_expected + 1 },
        st.p_expected, st.p_expected + 1) := by
  subst hp
  unfold wrapAndAssertRight
  rw [if_pos rfl, hsi, hdi, hwi,
    wrap_syntax_and_diff_noop cfg _ _ _ _ _ _ _ _ _ _ hlen]
  dsimp only
  rw [hpe]

theorem wmpStep_noop_minus {σ δ : Type} [Inhabited σ] [Inhabited δ]
    (cfg : Config σ δ) (lwd : MinusPlus Nat) (st : WmpState σ δ)
    (l1 : LineSegments σ) (si' : List (LineSegments σ)) (l2 : LineSegments δ)
    (di' : List (LineSegments δ)) (wi' : List Bool)
    (hsi : st.synRest.minus = l1 :: si') (hdi : st.diffRest.minus = l2 :: di')
    (hwi : st.wrapRest.minus = false :: wi')
    (hlen : st.newWrappedDiff.minus.length = st.newWrappedSyn.minus.length)
    (hme : st.newWrappedSyn.minus.length = st.m_expected) :
    wmpStep cfg lwd st (some st.m_expected, none) = .ok
      { st with
        newAlignment := st.newAlignment ++ [(some st.m_expected, none)]
        newStates := { st.newStates with
          minus := st.newStates.minus ++ [State.HunkMinus none] }
        newWrappedSyn := { st.newWrappedSyn with
          minus := st.newWrappedSyn.minus ++ [l1] }
        newWrappedDiff := { st.newWrappedDiff with
          minus := st.newWrappedDiff.minus ++ [l2] }
        synRest := { st.synRest with minus := si' }
        diffRest := { st.diffRest with minus := di' }
        wrapRest := { st.wrapRest with minus := wi' }
        m_expected := st.m_expected + 1 } := by
  simp only [wmpStep]
  rw [wrapAndAssertLeft_noop cfg lwd.minus st _ l1 si' l2 di' wi' _ rfl
    hsi hdi hwi hlen hme]
  dsimp only
  simp [pushStates, List.range', Nat.add_sub_cancel_left]

theorem wmpStep_noop_plus {σ δ : Type} [Inhabited σ] [Inhabited δ]
    (cfg : Config σ δ) (lwd : MinusPlus Nat) (st : WmpState σ δ)
    (l1 : LineSegments σ) (si' : List (LineSegments σ)) (l2 : LineSegments δ)
    (di' : List (LineSegments δ)) (wi' : List Bool)
    (hsi : st.synRest.plus = l1 :: si') (hdi : st.diffRest.plus = l2 :: di')
    (hwi : st.wrapRest.plus = false :: wi')
    (hlen : st.newWrappedDiff.plus.length = st.newWrappedSyn.plus.length)
    (hpe : st.newWrappedSyn.plus.length = st.p_expected) :
    wmpStep cfg lwd st (none, some st.p_expected) = .ok
      { st with
        newAlignment := st.newAlignment ++ [(none, some st.p_expected)]
        newStates := { st.newStates with
          plus := st.newStates.plus ++ [State.HunkPlus none] }
        newWrappedSyn := { st.newWrappedSyn with
          plus := st.newWrappedSyn.plus ++ [l1] }
        newWrappedDiff := { st.newWrappedDiff with
          plus := st.newWrappedDiff.plus ++ [l2] }
        synRest := { st.synRest with plus := si' }
        diffRest := { st.diffRest with plus := di' }
        wrapRest := { st.wrapRest with plus := wi' }
        p_expected := st.p_expected + 1 } := by
  simp only [wmpStep]
  rw [wrapAndAssertRight_noop cfg lwd.plus st _ l1 si' l2 di' wi' _ rfl
    hsi hdi hwi hlen hpe]
  dsimp only
  simp [pushStates, List.range', Nat.add_sub_cancel_left]

theorem wmpStep_noop_both {σ δ : Type} [Inhabited σ] [Inhabited δ]
    (cfg : Config σ δ) (lwd : MinusPlus Nat) (st : WmpState σ δ)
    (m1 : LineSegments σ) (msi : List (LineSegments σ)) (m2 : LineSegments δ)
    (mdi : List (LineSegments δ)) (mwi : List Bool)
    (p1 : LineSegments σ) (psi : List (LineSegments σ)) (p2 : LineSegments δ)
    (pdi : List (LineSegments δ)) (pwi : List Bool)
    (hsim : st.synRest.minus = m1 :: msi) (hdim : st.diffRest.minus = m2 :: mdi)
    (hwim : st.wrapRest.minus = false :: mwi)
    (hsip : st.synRest.plus = p1 :: psi) (hdip : st.diffRest.plus = p2 :: pdi)
    (hwip : st.wrapRest.plus = false :: pwi)
    (hlenm : st.newWrappedDiff.minus.length = st.newWrappedSyn.minus.length)
    (hlenp : st.newWrappedDiff.plus.length = st.newWrappedSyn.plus.length)
    (hme : st.newWrappedSyn.minus.length = st.m_expected)
    (hpe : st.newWrappedSyn.plus.length = st.p_expected) :
    wmpStep cfg lwd st (some st.m_expected, some st.p_expected) = .ok
      { st with
        newAlignment := st.newAlignment ++
          [(some st.m_expected, some st.p_expected)]
        newStates := ⟨st.newStates.minus ++ [State.HunkMinus none],
          st.newStates.plus ++ [State.HunkPlus none]⟩
        newWrappedSyn := ⟨st.newWrappedSyn.minus ++ [m1],
          st.newWrappedSyn.plus ++ [p1]⟩
        newWrappedDiff := ⟨st.newWrappedDiff.minus ++ [m2],
          st.newWrappedDiff.plus ++ [p2]⟩
        synRest := ⟨msi, psi⟩
        diffRest := ⟨mdi, pdi⟩
        wrapRest := ⟨mwi, pwi⟩
        m_expected := st.m_expected + 1
        p_expected := st.p_expected + 1 } := by
  simp only [wmpStep]
  rw [wrapAndAssertLeft_noop cfg lwd.minus st _ m1 msi m2 mdi mwi _ rfl
    hsim hdim hwim hlenm hme]
  dsimp only
  rw [wrapAndAssertRight_noop cfg lwd.plus
    ({ st with
      newWrappedSyn := { st.newWrappedSyn with
        minus := st.newWrappedSyn.minus ++ [m1] }
      newWrappedDiff := { st.newWrappedDiff with
        minus := st.newWrappedDiff.minus ++ [m2] }
      synRest := { st.synRest with minus := msi }
      diffRest := { st.diffRest with minus := mdi }
      wrapRest := { st.wrapRest with minus := mwi }
      m_expected := st.m_expected + 1 }) _ p1 psi p2 pdi pwi
    st.p_expected rfl hsip hdip hwip hlenp hpe]
  dsimp only
  simp [pushStates, pairZip, pairTail, List.range', Nat.add_sub_cancel_left]


theorem minusCount_cons (e : Option Nat × Option Nat)
    (al : List (Option Nat × Option Nat)) :
    minusCount (e :: al) = minusCount al + (if e.1.isSome then 1 else 0) := by
  simp [minusCount, List.countP_cons]

theorem plusCount_cons (e : Option Nat × Option Nat)
    (al : List (Option Nat × Option Nat)) :
    plusCount (e :: al) = plusCount al + (if e.2.isSome then 1 else 0) := by
  simp [plusCount, List.countP_cons]

theorem wmpFold_noop {σ δ : Type} [Inhabited σ] [Inhabited δ]
    (cfg : Config σ δ) (lwd : MinusPlus Nat) :
    ∀ {me pe : Nat} {al : List (Option Nat × Option Nat)}, SeqValid me pe al →
    ∀ (st : WmpState σ δ),
      st.m_expected = me → st.p_expected = pe →
      st.synRest.minus.length = minusCount al →
      st.diffRest.minus.length = minusCount al →
      st.synRest.plus.length = plusCount al →
      st.diffRest.plus.length = plusCount al →
      st.wrapRest.minus = List.replicate (minusCount al) false →
      st.wrapRest.plus = List.replicate (plusCount al) false →
      st.newWrappedSyn.minus.length = me →
      st.newWrappedDiff.minus.length = me →
      st.newWrappedSyn.plus.length = pe →
      st.newWrappedDiff.plus.length = pe →
      wmpFold cfg lwd st al = .ok
        { newAlignment := st.newAlignment ++ al
          newStates := ⟨st.newStates.minus ++
              List.replicate (minusCount al) (State.HunkMinus none),
            st.newStates.plus ++
              List.replicate (plusCount al) (State.HunkPlus none)⟩
          newWrappedSyn := ⟨st.newWrappedSyn.minus ++ st.synRest.minus,
            st.newWrappedSyn.plus ++ st.synRest.plus⟩
          newWrappedDiff := ⟨st.newWrappedDiff.minus ++ st.diffRest.minus,
            st.newWrappedDiff.plus ++ st.diffRest.plus⟩
          synRest := ⟨[], []⟩
          diffRest := ⟨[], []⟩
          wrapRest := ⟨[], []⟩
          m_expected := me + minusCount al
          p_expected := pe + plusCount al } := by
  intro me pe al hval
  induction hval with
  | nil m p =>
    intro st hm hp hsm hdm hsp hdp hwm hwp ha hb hc hd
    have e1 : st.synRest.minus = [] :=
      List.length_eq_zero.mp (by simpa [minusCount] using hsm)
    have e2 : st.diffRest.minus = [] :=
      List.length_eq_zero.mp (by simpa [minusCount] using hdm)
    have e3 : st.synRest.plus = [] :=
      List.length_eq_zero.mp (by simpa [plusCount] using hsp)
    have e4 : st.diffRest.plus = [] :=
      List.length_eq_zero.mp (by simpa [plusCount] using hdp)
    simp only [minusCount, plusCount, List.countP_nil, List.replicate_zero] at hwm hwp ⊢
    rcases st with ⟨na, ⟨nsm, nsp⟩, ⟨wsm, wsp⟩, ⟨wdm, wdp⟩, ⟨srm, srp⟩,
      ⟨drm, drp⟩, ⟨wrm, wrp⟩, mex, pex⟩
    simp only at e1 e2 e3 e4 hwm hwp hm hp
    subst e1 e2 e3 e4 hwm hwp hm hp
    simp [wmpFold]
  | minusOnly m p rest hrest ih =>
    intro st hm hp hsm hdm hsp hdp hwm hwp ha hb hc hd
    rw [minusCount_cons] at hsm hdm hwm
    rw [plusCount_cons] at hsp hdp hwp
    simp only [Option.isSome_some, if_true, Option.isSome_none, if_false,
      Nat.add_zero] at hsm hdm hsp hdp hwm hwp
    obtain ⟨l1, si', he1⟩ : ∃ x xs, st.synRest.minus = x :: xs := by
      cases hx : st.synRest.minus
      · rw [hx] at hsm; simp at hsm
      · exact ⟨_, _, rfl⟩
    obtain ⟨l2, di', he2⟩ : ∃ x xs, st.diffRest.minus = x :: xs := by
      cases hx : st.diffRest.minus
      · rw [hx] at hdm; simp at hdm
      · exact ⟨_, _, rfl⟩
    have hwm' : st.wrapRest.minus = false :: List.replicate (minusCount rest) false := by
      simpa [List.replicate_succ] using hwm
    have hstep := wmpStep_noop_minus cfg lwd st l1 si' l2 di'
      (List.replicate (minusCount rest) false) he1 he2 hwm'
      (by rw [hb, ha]) (by rw [ha, hm])
    rw [hm] at hstep
    simp only [wmpFold]
    rw [hstep]
    dsimp only
    rw [ih _ (by simp [hm]) (by simp [hp]) (by simpa [he1] using hsm)
      (by simpa [he2] using hdm) (by simpa using hsp) (by simpa using hdp)
      (by simp [hwm']) (by simpa using hwp) (by simp [ha, hm])
      (by simp [hb, hm]) (by simpa using hc) (by simpa using hd)]
    rw [minusCount_cons, plusCount_cons]
    simp [he1, he2, List.replicate_succ] <;> omega
  | plusOnly m p rest hrest ih =>
    intro st hm hp hsm hdm hsp hdp hwm hwp ha hb hc hd
    rw [minusCount_cons] at hsm hdm hwm
    rw [plusCount_cons] at hsp hdp hwp
    simp only [Option.isSome_some, if_true, Option.isSome_none, if_false,
      Nat.add_zero] at hsm hdm hsp hdp hwm hwp
    obtain ⟨l1, si', he1⟩ : ∃ x xs, st.synRest.plus = x :: xs := by
      cases hx : st.synRest.plus
      · rw [hx] at hsp; simp at hsp
      · exact ⟨_, _, rfl⟩
    obtain ⟨l2, di', he2⟩ : ∃ x xs, st.diffRest.plus = x :: xs := by
      cases hx : st.diffRest.plus
      · rw [hx] at hdp; simp at hdp
      · exact ⟨_, _, rfl⟩
    have hwp' : st.wrapRest.plus = false :: List.replicate (plusCount rest) false := by
      simpa [List.replicate_succ] using hwp
    have hstep := wmpStep_noop_plus cfg lwd st l1 si' l2 di'
      (List.replicate (plusCount rest) false) he1 he2 hwp'
      (by rw [hd, hc]) (by rw [hc, hp])
    rw [hp] at hstep
    simp only [wmpFold]
    rw [hstep]
    dsimp only
    rw [ih _ (by simp [hm]) (by simp [hp]) (by simpa using hsm)
      (by simpa using hdm) (by simpa [he1] using hsp) (by simpa [he2] using hdp)
      (by simpa using hwm) (by simp [hwp']) (by simpa using ha)
      (by simpa using hb) (by simp [hc, hp]) (by simp [hd, hp])]
    rw [minusCount_cons, plusCount_cons]
    simp [he1, he2, List.replicate_succ] <;> omega
  | both m p rest hrest ih =>
    intro st hm hp hsm hdm hsp hdp hwm hwp ha hb hc hd
    rw [minusCount_cons] at hsm hdm hwm
    rw [plusCount_cons] at hsp hdp hwp
    simp only [Option.isSome_some, if_true, Nat.add_zero] at hsm hdm hsp hdp hwm hwp
    obtain ⟨m1, msi, he1⟩ : ∃ x xs, st.synRest.minus = x :: xs := by
      cases hx : st.synRest.minus
      · rw [hx] at hsm; simp at hsm
      · exact ⟨_, _, rfl⟩
    obtain ⟨m2, mdi, he2⟩ : ∃ x xs, st.diffRest.minus = x :: xs := by
      cases hx : st.diffRest.minus
      · rw [hx] at hdm; simp at hdm
      · exact ⟨_, _, rfl⟩
    obtain ⟨p1, psi, he3⟩ : ∃ x xs, st.synRest.plus = x :: xs := by
      cases hx : st.synRest.plus
      · rw [hx] at hsp; simp at hsp
      · exact ⟨_, _, rfl⟩
    obtain ⟨p2, pdi, he4⟩ : ∃ x xs, st.diffRest.plus = x :: xs := by
      cases hx : st.diffRest.plus
      · rw [hx] at hdp; simp at hdp
      · exact ⟨_, _, rfl⟩
    have hwm' : st.wrapRest.minus = false :: List.replicate (minusCount rest) false := by
      simpa [List.replicate_succ] using hwm
    have hwp' : st.wrapRest.plus = false :: List.replicate (plusCount rest) false := by
      simpa [List.replicate_succ] using hwp
    have hstep := wmpStep_noop_both cfg lwd st m1 msi m2 mdi
      (List.replicate (minusCount rest) false) p1 psi p2 pdi
      (List.replicate (plusCount rest) false) he1 he2 hwm' he3 he4 hwp'
      (by rw [hb, ha]) (by rw [hd, hc]) (by rw [ha, hm]) (by rw [hc, hp])
    rw [hm, hp] at hstep
    simp only [wmpFold]
    rw [hstep]
    dsimp only
    rw [ih _ (by simp [hm]) (by simp [hp]) (by simpa [he1] using hsm)
      (by simpa [he2] using hdm) (by simpa [he3] using hsp)
      (by simpa [he4] using hdp) (by simp [hwm']) (by simp [hwp'])
      (by simp [ha, hm]) (by simp [hb, hm]) (by simp [hc, hp]) (by simp [hd, hp])]
    rw [minusCount_cons, plusCount_cons]
    simp [he1, he2, he3, he4, List.replicate_succ] <;> omega

/-- C7 — No-op identity: when every wrap-info mask bit is false (no line is
marked as too long), `wrap_minusplus_block` succeeds and returns the input
alignment and the input syntax and diff segment vectors unchanged; the
returned states — which the function produces fresh rather than receiving as
an input — are the canonical unwrapped states, `HunkMinus None` for every
minus line and `HunkPlus None` for every plus line. -/
theorem C7_noop_identity {σ δ : Type} [Inhabited σ] [Inhabited δ]
    (cfg : Config σ δ) (syn : MinusPlus (List (LineSegments σ)))
    (diff : MinusPlus (List (LineSegments δ)))
    (al : List (Option Nat × Option Nat)) (lwd : MinusPlus Nat)
    (hval : SeqValid 0 0 al)
    (hsm : syn.minus.length = minusCount al)
    (hdm : diff.minus.length = minusCount al)
    (hsp : syn.plus.length = plusCount al)
    (hdp : diff.plus.length = plusCount al) :
    wrap_minusplus_block cfg syn diff al lwd
      ⟨List.replicate (minusCount al) false,
        List.replicate (plusCount al) false⟩ =
      .ok (al, ⟨List.replicate (minusCount al) (State.HunkMinus none),
        List.replicate (plusCount al) (State.HunkPlus none)⟩, syn, diff) := by
  simp only [wrap_minusplus_block]
  rw [wmpFold_noop cfg lwd hval
    (wmpInit syn diff ⟨List.replicate (minusCount al) false,
      List.replicate (plusCount al) false⟩) rfl rfl hsm hdm hsp hdp
    rfl rfl rfl rfl rfl rfl]
  simp [wmpInit]

def alW7 : List (Option Nat × Option Nat) := [(some 0, some 0), (some 1, none)]

def synW7 : MinusPlus (List (LineSegments Unit)) := ⟨[lineM, lineP], [lineM]⟩

/-- Witness for C7 at a concrete no-op block. -/
theorem C7_noop_identity_witness :
    SeqValid 0 0 alW7 ∧ synW7.minus.length = minusCount alW7 ∧
      synW7.plus.length = plusCount alW7 ∧
      wrap_minusplus_block cfgW synW7 synW7 alW7 lwW
        ⟨List.replicate (minusCount alW7) false,
          List.replicate (plusCount alW7) false⟩ =
        .ok (alW7, ⟨List.replicate (minusCount alW7) (State.HunkMinus none),
          List.replicate (plusCount alW7) (State.HunkPlus none)⟩,
          synW7, synW7) :=
  ⟨SeqValid.both 0 0 _ (SeqValid.minusOnly 1 1 [] (SeqValid.nil 2 1)),
    rfl, rfl,
    C7_noop_identity cfgW synW7 synW7 alW7 lwW
      (SeqValid.both 0 0 _ (SeqValid.minusOnly 1 1 [] (SeqValid.nil 2 1)))
      rfl rfl rfl rfl⟩



theorem keepEntry_append (sm sp tm tp : List State) (e : Option Nat × Option Nat)
    (h1 : ∀ i, e.1 = some i → i < sm.length)
    (h2 : ∀ i, e.2 = some i → i < sp.length) :
    keepEntry (sm ++ tm) (sp ++ tp) e = keepEntry sm sp e := by
  rcases e with ⟨a, b⟩
  unfold keepEntry
  congr 1
  · cases a with
    | none => rfl
    | some i =>
      dsimp only
      rw [List.getD_append _ _ _ _ (h1 i rfl)]
  · cases b with
    | none => rfl
    | some i =>
      dsimp only
      rw [List.getD_append _ _ _ _ (h2 i rfl)]

theorem logicalIndex_append (sm t : List State) (i : Nat) (h : i ≤ sm.length) :
    logicalIndex (sm ++ t) i = logicalIndex sm i := by
  unfold logicalIndex
  rw [List.take_append_of_le_length h]

theorem unwrap_append_states (sm sp tm tp : List State)
    (al : List (Option Nat × Option Nat))
    (hb : ∀ e ∈ al, (∀ i, e.1 = some i → i < sm.length) ∧
      (∀ i, e.2 = some i → i < sp.length)) :
    unwrapAlignment (sm ++ tm) (sp ++ tp) al = unwrapAlignment sm sp al := by
  unfold unwrapAlignment
  rw [List.filter_congr (fun e he => keepEntry_append sm sp tm tp e
    (hb e he).1 (hb e he).2)]
  apply List.map_congr_left
  intro e he
  rw [List.mem_filter] at he
  rcases e with ⟨a, b⟩
  congr 1
  · cases a with
    | none => rfl
    | some i =>
      have hli := logicalIndex_append sm tm i (Nat.le_of_lt ((hb _ he.1).1 i rfl))
      simp [hli]
  · cases b with
    | none => rfl
    | some i =>
      have hli := logicalIndex_append sp tp i (Nat.le_of_lt ((hb _ he.1).2 i rfl))
      simp [hli]

theorem unwrapAlignment_append (sm sp : List State)
    (a b : List (Option Nat × Option Nat)) :
    unwrapAlignment sm sp (a ++ b) =
      unwrapAlignment sm sp a ++ unwrapAlignment sm sp b := by
  simp [unwrapAlignment]

theorem unwrap_eval (sm sp : List State) (hd : Option Nat × Option Nat)
    (tl : List (Option Nat × Option Nat))
    (hkeep : keepEntry sm sp hd = true)
    (htl : ∀ e ∈ tl, keepEntry sm sp e = false) :
    unwrapAlignment sm sp (hd :: tl) =
      [(hd.1.map (logicalIndex sm), hd.2.map (logicalIndex sp))] := by
  unfold unwrapAlignment
  rw [List.filter_cons_of_pos hkeep, List.filter_eq_nil_iff.mpr
    (by intro e he; simp [htl e he])]
  simp

theorem getD_block_head (sm : List State) (x : State) (r : List State) (d : State) :
    (sm ++ x :: r).getD sm.length d = x := by
  rw [List.getD_append_right _ _ _ _ (Nat.le_refl _)]
  simp

theorem getD_block_tail (sm : List State) (x w : State) (k : Nat) (d : State)
    (i : Nat) (h1 : sm.length < i) (h2 : i < sm.length + 1 + k) :
    (sm ++ x :: List.replicate k w).getD i d = w := by
  rw [List.getD_append_right _ _ _ _ (Nat.le_of_lt h1)]
  have h3 : 0 < i - sm.length := by omega
  have h4 : i - sm.length - 1 < k := by omega
  rcases hj : i - sm.length with _ | j
  · omega
  · simp only [List.getD_cons_succ]
    rw [List.getD_eq_getElem?_getD, List.getElem?_replicate]
    rw [if_pos (by omega)]
    rfl

theorem countP_take_block (sm : List State) (t : List State)
    (pr : State → Bool) :
    ((sm ++ t).take sm.length).countP pr = sm.countP pr := by
  rw [List.take_left]

theorem countP_block (sm : List State) (x w : State) (k : Nat)
    (hx : isWrappedState x = false) (hw : isWrappedState w = true) :
    (sm ++ x :: List.replicate k w).countP (fun s => !isWrappedState s) =
      sm.countP (fun s => !isWrappedState s) + 1 := by
  rw [List.countP_append, List.countP_cons]
  simp [hx, hw, List.countP_replicate]


theorem wrapAndAssertLeft_iter {σ δ : Type} [Inhabited σ] [Inhabited δ]
    (cfg : Config σ δ) {lw : Nat} {st st' : WmpState σ δ} {eh : String}
    {m s e : Nat} (h : wrapAndAssertLeft cfg lw st eh m = .ok (st', s, e)) :
    ∃ l1 si', st.synRest.minus = l1 :: si' ∧ st'.synRest.minus = si' ∧
      (concatText l1 ≠ [] → s < e) := by
  unfold wrapAndAssertLeft at h
  split at h
  case isTrue hm =>
    cases hw : wrap_syntax_and_diff cfg st.newWrappedSyn.minus st.newWrappedDiff.minus
        st.synRest.minus st.diffRest.minus st.wrapRest.minus lw cfg.minus_style eh with
    | error err => rw [hw] at h; cases h
    | ok o =>
      rw [hw] at h
      obtain ⟨b, wi', l1, si', l2, di', hwi, hsi, hdi, hlen, hcdl, hout⟩ :=
        wrap_syntax_and_diff_ok cfg hw
      subst hout
      cases h
      refine ⟨l1, si', hsi, rfl, ?_⟩
      intro hne
      have : (if b then wrap_line cfg.wrap_config l1 lw cfg.null_syntect_style
          (some cfg.inline_hint_syntect_style) else [l1]) ≠ [] := by
        split
        · exact wrap_line_ne_nil _ _ _ _ _ hne
        · simp
      have := List.length_pos.mpr this
      omega
  case isFalse => cases h

theorem wrapAndAssertRight_iter {σ δ : Type} [Inhabited σ] [Inhabited δ]
    (cfg : Config σ δ) {lw : Nat} {st st' : WmpState σ δ} {eh : String}
    {p s e : Nat} (h : wrapAndAssertRight cfg lw st eh p = .ok (st', s, e)) :
    ∃ l1 si', st.synRest.plus = l1 :: si' ∧ st'.synRest.plus = si' ∧
      (concatText l1 ≠ [] → s < e) := by
  unfold wrapAndAssertRight at h
  split at h
  case isTrue hp =>
    cases hw : wrap_syntax_and_diff cfg st.newWrappedSyn.plus st.newWrappedDiff.plus
        st.synRest.plus st.diffRest.plus st.wrapRest.plus lw cfg.plus_style eh with
    | error err => rw [hw] at h; cases h
    | ok o =>
      rw [hw] at h
      obtain ⟨b, wi', l1, si', l2, di', hwi, hsi, hdi, hlen, hcdl, hout⟩ :=
        wrap_syntax_and_diff_ok cfg hw
      subst hout
      cases h
      refine ⟨l1, si', hsi, rfl, ?_⟩
      intro hne
      have : (if b then wrap_line cfg.wrap_config l1 lw cfg.null_syntect_style
          (some cfg.inline_hint_syntect_style) else [l1]) ≠ [] := by
        split
        · exact wrap_line_ne_nil _ _ _ _ _ hne
        · simp
      have := List.length_pos.mpr this
      omega
  case isFalse => cases h

theorem pushStates_pos_minus {σ δ : Type} (st : WmpState σ δ) (k : Nat)
    (hk : 0 < k) :
    pushStates st k 0 = { st with newStates := { st.newStates with
      minus := st.newStates.minus ++
        State.HunkMinus none :: List.replicate (k - 1) State.HunkMinusWrapped } } := by
  simp [pushStates, hk]

theorem pushStates_pos_plus {σ δ : Type} (st : WmpState σ δ) (k : Nat)
    (hk : 0 < k) :
    pushStates st 0 k = { st with newStates := { st.newStates with
      plus := st.newStates.plus ++
        State.HunkPlus none :: List.replicate (k - 1) State.HunkPlusWrapped } } := by
  simp [pushStates, hk]

theorem pushStates_pos_both {σ δ : Type} (st : WmpState σ δ) (km kp : Nat)
    (hm : 0 < km) (hp : 0 < kp) :
    pushStates st km kp = { st with newStates :=
      ⟨st.newStates.minus ++
        State.HunkMinus none :: List.replicate (km - 1) State.HunkMinusWrapped,
       st.newStates.plus ++
        State.HunkPlus none :: List.replicate (kp - 1) State.HunkPlusWrapped⟩ } := by
  simp [pushStates, hm, hp]


theorem wmpStep_spec_minus {σ δ : Type} [Inhabited σ] [Inhabited δ]
    (cfg : Config σ δ) (lwd : MinusPlus Nat) (st st₁ : WmpState σ δ) (m : Nat)
    (h : wmpStep cfg lwd st (some m, none) = .ok st₁)
    (hne : ∀ l ∈ st.synRest.minus, concatText l ≠ []) :
    ∃ k, 1 ≤ k ∧ m = st.m_expected ∧
      st₁.newAlignment = st.newAlignment ++
        (List.range' st.newWrappedSyn.minus.length k).map
          (fun i => ((some i : Option Nat), (none : Option Nat))) ∧
      st₁.newStates.minus = st.newStates.minus ++
        State.HunkMinus none :: List.replicate (k - 1) State.HunkMinusWrapped ∧
      st₁.newStates.plus = st.newStates.plus ∧
      st₁.newWrappedSyn.minus.length = st.newWrappedSyn.minus.length + k ∧
      st₁.newWrappedSyn.plus.length = st.newWrappedSyn.plus.length ∧
      st₁.m_expected = st.m_expected + 1 ∧
      st₁.p_expected = st.p_expected ∧
      (∀ l ∈ st₁.synRest.minus, concatText l ≠ []) ∧
      st₁.synRest.plus = st.synRest.plus := by
  simp only [wmpStep] at h
  cases hL : wrapAndAssertLeft cfg lwd.minus st "[*l*] (-)" m with
  | error err => rw [hL] at h; cases h
  | ok o =>
    rcases o with ⟨st2, s, e⟩
    rw [hL] at h
    dsimp only at h
    obtain ⟨hm, hs, hse, hal, hns, hwm, hwd, hwsp, hwdp, hsrp, hdrp, hwrp,
      hmex, hpex⟩ := wrapAndAssertLeft_ok cfg hL
    obtain ⟨l1, si', hsi, hsi', hlt⟩ := wrapAndAssertLeft_iter cfg hL
    have hk : 0 < e - s := by
      have := hlt (hne l1 (by rw [hsi]; simp))
      omega
    rw [pushStates_pos_minus _ _ hk] at h
    cases h
    refine ⟨e - s, hk, hm, ?_, ?_, ?_, ?_, ?_, ?_, ?_, ?_, ?_⟩
    · dsimp only
      rw [hal, hs]
    · dsimp only
      rw [hns]
    · dsimp only
      rw [hns]
    · dsimp only
      rw [hwm]
      omega
    · dsimp only
      rw [hwsp]
    · dsimp only
      exact hmex
    · dsimp only
      exact hpex
    · dsimp only
      rw [hsi']
      intro l hl
      exact hne l (by rw [hsi]; simp [hl])
    · dsimp only
      exact hsrp

theorem wmpStep_spec_plus {σ δ : Type} [Inhabited σ] [Inhabited δ]
    (cfg : Config σ δ) (lwd : MinusPlus Nat) (st st₁ : WmpState σ δ) (p : Nat)
    (h : wmpStep cfg lwd st (none, some p) = .ok st₁)
    (hne : ∀ l ∈ st.synRest.plus, concatText l ≠ []) :
    ∃ k, 1 ≤ k ∧ p = st.p_expected ∧
      st₁.newAlignment = st.newAlignment ++
        (List.range' st.newWrappedSyn.plus.length k).map
          (fun i => ((none : Option Nat), (some i : Option Nat))) ∧
      st₁.newStates.plus = st.newStates.plus ++
        State.HunkPlus none :: List.replicate (k - 1) State.HunkPlusWrapped ∧
      st₁.newStates.minus = st.newStates.minus ∧
      st₁.newWrappedSyn.plus.length = st.newWrappedSyn.plus.length + k ∧
      st₁.newWrappedSyn.minus.length = st.newWrappedSyn.minus.length ∧
      st₁.p_expected = st.p_expected + 1 ∧
      st₁.m_expected = st.m_expected ∧
      (∀ l ∈ st₁.synRest.plus, concatText l ≠ []) ∧
      st₁.synRest.minus = st.synRest.minus := by
  simp only [wmpStep] at h
  cases hR : wrapAndAssertRight cfg lwd.plus st "(-) [*r*]" p with
  | error err => rw [hR] at h; cases h
  | ok o =>
    rcases o with ⟨st2, s, e⟩
    rw [hR] at h
    dsimp only at h
    obtain ⟨hp, hs, hse, hal, hns, hwp, hwdp, hwsm, hwdm, hsrm, hdrm, hwrm,
      hpex, hmex⟩ := wrapAndAssertRight_ok cfg hR
    obtain ⟨l1, si', hsi, hsi', hlt⟩ := wrapAndAssertRight_iter cfg hR
    have hk : 0 < e - s := by
      have := hlt (hne l1 (by rw [hsi]; simp))
      omega
    rw [pushStates_pos_plus _ _ hk] at h
    cases h
    refine ⟨e - s, hk, hp, ?_, ?_, ?_, ?_, ?_, ?_, ?_, ?_, ?_⟩
    · dsimp only
      rw [hal, hs]
    · dsimp only
      rw [hns]
    · dsimp only
      rw [hns]
    · dsimp only
      rw [hwp]
      omega
    · dsimp only
      rw [hwsm]
    · dsimp only
      exact hpex
    · dsimp only
      exact hmex
    · dsimp only
      rw [hsi']
      intro l hl
      exact hne l (by rw [hsi]; simp [hl])
    · dsimp only
      exact hsrm

theorem wmpStep_spec_both {σ δ : Type} [Inhabited σ] [Inhabited δ]
    (cfg : Config σ δ) (lwd : MinusPlus Nat) (st st₁ : WmpState σ δ) (m p : Nat)
    (h : wmpStep cfg lwd st (some m, some p) = .ok st₁)
    (hnem : ∀ l ∈ st.synRest.minus, concatText l ≠ [])
    (hnep : ∀ l ∈ st.synRest.plus, concatText l ≠ []) :
    ∃ km kp, 1 ≤ km ∧ 1 ≤ kp ∧ m = st.m_expected ∧ p = st.p_expected ∧
      st₁.newAlignment = st.newAlignment ++
        (pairZip st.newWrappedSyn.minus.length
          (st.newWrappedSyn.minus.length + km)
          st.newWrappedSyn.plus.length (st.newWrappedSyn.plus.length + kp) ++
         pairTail (st.newWrappedSyn.minus.length + km)
          (st.newWrappedSyn.plus.length + kp) km kp) ∧
      st₁.newStates.minus = st.newStates.minus ++
        State.HunkMinus none :: List.replicate (km - 1) State.HunkMinusWrapped ∧
      st₁.newStates.plus = st.newStates.plus ++
        State.HunkPlus none :: List.replicate (kp - 1) State.HunkPlusWrapped ∧
      st₁.newWrappedSyn.minus.length = st.newWrappedSyn.minus.length + km ∧
      st₁.newWrappedSyn.plus.length = st.newWrappedSyn.plus.length + kp ∧
      st₁.m_expected = st.m_expected + 1 ∧
      st₁.p_expected = st.p_expected + 1 ∧
      (∀ l ∈ st₁.synRest.minus, concatText l ≠ []) ∧
      (∀ l ∈ st₁.synRest.plus, concatText l ≠ []) := by
  simp only [wmpStep] at h
  cases hL : wrapAndAssertLeft cfg lwd.minus st "[*l*] (r)" m with
  | error err => rw [hL] at h; cases h
  | ok o =>
    rcases o with ⟨st2, ms, me⟩
    rw [hL] at h
    dsimp only at h
    cases hR : wrapAndAssertRight cfg lwd.plus st2 "(l) [*r*]" p with
    | error err => rw [hR] at h; cases h
    | ok o2 =>
      rcases o2 with ⟨st3, ps, pe⟩
      rw [hR] at h
      dsimp only at h
      obtain ⟨hm, hms, hmse, hal2, hns2, hwm2, hwd2, hwsp2, hwdp2, hsrp2,
        hdrp2, hwrp2, hmex2, hpex2⟩ := wrapAndAssertLeft_ok cfg hL
      obtain ⟨l1, si', hsi, hsi', hlt⟩ := wrapAndAssertLeft_iter cfg hL
      obtain ⟨hp, hps, hpse, hal3, hns3, hwp3, hwdp3, hwsm3, hwdm3, hsrm3,
        hdrm3, hwrm3, hpex3, hmex3⟩ := wrapAndAssertRight_ok cfg hR
      obtain ⟨q1, qi', hqi, hqi', hqlt⟩ := wrapAndAssertRight_iter cfg hR
      have hkm : 0 < me - ms := by
        have := hlt (hnem l1 (by rw [hsi]; simp))
        omega
      have hkp : 0 < pe - ps := by
        have hq : q1 ∈ st.synRest.plus := by
          rw [← hsrp2, hqi]
          simp
        have := hqlt (hnep q1 hq)
        omega
      rw [pushStates_pos_both _ _ _ hkm hkp] at h
      cases h
      have hps' : ps = st.newWrappedSyn.plus.length := by rw [hps, hwsp2]
      have hme' : me = st.newWrappedSyn.minus.length + (me - ms) := by omega
      have hpe' : pe = st.newWrappedSyn.plus.length + (pe - ps) := by omega
      refine ⟨me - ms, pe - ps, hkm, hkp, hm, by rw [hp, hpex2], ?_, ?_, ?_,
        ?_, ?_, ?_, ?_, ?_, ?_⟩
      · dsimp only
        rw [hal3, hal2, hms, hps']
        have h1 : st.newWrappedSyn.minus.length +
            (me - st.newWrappedSyn.minus.length) = me := by omega
        have h2 : st.newWrappedSyn.plus.length +
            (pe - st.newWrappedSyn.plus.length) = pe := by omega
        rw [h1, h2]
      · dsimp only
        rw [hns3, hns2]
      · dsimp only
        rw [hns3, hns2]
      · dsimp only
        rw [hwsm3, hwm2]
        omega
      · dsimp only
        rw [hwp3]
        omega
      · dsimp only
        rw [hmex3, hmex2]
      · dsimp only
        rw [hpex3, hpex2]
      · dsimp only
        rw [hsrm3, hsi']
        intro l hl
        exact hnem l (by rw [hsi]; simp [hl])
      · dsimp only
        rw [hqi']
        intro l hl
        apply hnep l
        rw [← hsrp2, hqi]
        simp [hl]


theorem keepEntry_false_of_minus (sm sp : List State) (i : Nat) (b : Option Nat)
    (h : isWrappedState (sm.getD i (State.HunkMinus none)) = true) :
    keepEntry sm sp (some i, b) = false := by
  unfold keepEntry
  rw [List.getD_eq_getElem?_getD] at h
  cases b <;> simp [h]

theorem keepEntry_false_of_plus (sm sp : List State) (a : Option Nat) (i : Nat)
    (h : isWrappedState (sp.getD i (State.HunkPlus none)) = true) :
    keepEntry sm sp (a, some i) = false := by
  unfold keepEntry
  rw [List.getD_eq_getElem?_getD] at h
  cases a <;> simp [h]

theorem unwrap_chunk_minus (sm sp : List State) (k : Nat) (hk : 1 ≤ k) :
    unwrapAlignment
      (sm ++ State.HunkMinus none :: List.replicate (k - 1) State.HunkMinusWrapped)
      sp
      ((List.range' sm.length k).map
        (fun i => ((some i : Option Nat), (none : Option Nat)))) =
      [(some (sm.countP (fun s => !isWrappedState s)), none)] := by
  obtain ⟨k', rfl⟩ : ∃ k', k = k' + 1 := ⟨k - 1, by omega⟩
  rw [List.range'_succ, List.map_cons]
  rw [unwrap_eval]
  · simp [logicalIndex, List.take_left]
  · simp only [keepEntry, getD_block_head]
    rfl
  · intro e he
    simp only [List.mem_map] at he
    obtain ⟨i, hi, rfl⟩ := he
    rw [List.mem_range'_1] at hi
    apply keepEntry_false_of_minus
    rw [getD_block_tail sm _ _ _ _ i (by omega) (by omega)]
    rfl

theorem unwrap_chunk_plus (sm sp : List State) (k : Nat) (hk : 1 ≤ k) :
    unwrapAlignment sm
      (sp ++ State.HunkPlus none :: List.replicate (k - 1) State.HunkPlusWrapped)
      ((List.range' sp.length k).map
        (fun i => ((none : Option Nat), (some i : Option Nat)))) =
      [(none, some (sp.countP (fun s => !isWrappedState s)))] := by
  obtain ⟨k', rfl⟩ : ∃ k', k = k' + 1 := ⟨k - 1, by omega⟩
  rw [List.range'_succ, List.map_cons]
  rw [unwrap_eval]
  · simp [logicalIndex, List.take_left]
  · simp only [keepEntry, getD_block_head]
    rfl
  · intro e he
    simp only [List.mem_map] at he
    obtain ⟨i, hi, rfl⟩ := he
    rw [List.mem_range'_1] at hi
    apply keepEntry_false_of_plus
    rw [getD_block_tail sp _ _ _ _ i (by omega) (by omega)]
    rfl

theorem pairTail_bounds (a b km kp : Nat) (hm : 1 ≤ km) (hp : 1 ≤ kp) :
    ∀ e ∈ pairTail (a + km) (b + kp) km kp,
      (e.1.isSome = true ∨ e.2.isSome = true) ∧
      (∀ i, e.1 = some i → a + 1 ≤ i ∧ i < a + km) ∧
      (∀ i, e.2 = some i → b + 1 ≤ i ∧ i < b + kp) := by
  unfold pairTail
  split_ifs with h1 h2 <;> intro e he
  · simp only [List.mem_map] at he
    obtain ⟨i, hi, rfl⟩ := he
    rw [List.mem_range'_1] at hi
    refine ⟨Or.inl rfl, fun j hj => ?_, fun j hj => ?_⟩
    · cases hj
      omega
    · cases hj
  · simp only [List.mem_map] at he
    obtain ⟨i, hi, rfl⟩ := he
    rw [List.mem_range'_1] at hi
    refine ⟨Or.inr rfl, fun j hj => ?_, fun j hj => ?_⟩
    · cases hj
    · cases hj
      omega
  · simp at he

theorem unwrap_chunk_both (sm sp : List State) (km kp : Nat)
    (hm : 1 ≤ km) (hp : 1 ≤ kp) :
    unwrapAlignment
      (sm ++ State.HunkMinus none :: List.replicate (km - 1) State.HunkMinusWrapped)
      (sp ++ State.HunkPlus none :: List.replicate (kp - 1) State.HunkPlusWrapped)
      (pairZip sm.length (sm.length + km) sp.length (sp.length + kp) ++
        pairTail (sm.length + km) (sp.length + kp) km kp) =
      [(some (sm.countP (fun s => !isWrappedState s)),
        some (sp.countP (fun s => !isWrappedState s)))] := by
  obtain ⟨km', rfl⟩ : ∃ k', km = k' + 1 := ⟨km - 1, by omega⟩
  obtain ⟨kp', rfl⟩ : ∃ k', kp = k' + 1 := ⟨kp - 1, by omega⟩
  have hz : pairZip sm.length (sm.length + (km' + 1)) sp.length
      (sp.length + (kp' + 1)) =
      ((some sm.length : Option Nat), (some sp.length : Option Nat)) ::
        ((List.range' (sm.length + 1) km').zip
          (List.range' (sp.length + 1) kp')).map
          (fun q => (some q.1, some q.2)) := by
    unfold pairZip
    rw [Nat.add_sub_cancel_left, Nat.add_sub_cancel_left,
      List.range'_succ, List.range'_succ]
    rfl
  rw [hz, List.cons_append]
  rw [unwrap_eval]
  · simp [logicalIndex, List.take_left]
  · simp only [keepEntry, getD_block_head]
    rfl
  · intro e he
    rcases List.mem_append.mp he with hzm | htm
    · simp only [List.mem_map] at hzm
      obtain ⟨⟨i, j⟩, hij, rfl⟩ := hzm
      have hi := (List.of_mem_zip hij).1
      rw [List.mem_range'_1] at hi
      apply keepEntry_false_of_minus
      rw [getD_block_tail sm _ _ _ _ i (by omega) (by omega)]
      rfl
    · have hb := pairTail_bounds sm.length sp.length (km' + 1) (kp' + 1)
        (by omega) (by omega) e htm
      rcases e with ⟨eo1, eo2⟩
      cases eo1 with
      | some i =>
        obtain ⟨hi1, hi2⟩ := hb.2.1 i rfl
        apply keepEntry_false_of_minus
        rw [getD_block_tail sm _ _ _ _ i (by omega) (by omega)]
        rfl
      | none =>
        cases eo2 with
        | some i =>
          obtain ⟨hi1, hi2⟩ := hb.2.2 i rfl
          apply keepEntry_false_of_plus
          rw [getD_block_tail sp _ _ _ _ i (by omega) (by omega)]
          rfl
        | none =>
          rcases hb.1 with hc | hc <;> simp at hc


theorem wmpFold_unwrap {σ δ : Type} [Inhabited σ] [Inhabited δ]
    (cfg : Config σ δ) (lwd : MinusPlus Nat) :
    ∀ (al : List (Option Nat × Option Nat)) (st st' : WmpState σ δ),
      (∀ l ∈ st.synRest.minus, concatText l ≠ []) →
      (∀ l ∈ st.synRest.plus, concatText l ≠ []) →
      st.newStates.minus.length = st.newWrappedSyn.minus.length →
      st.newStates.plus.length = st.newWrappedSyn.plus.length →
      st.newStates.minus.countP (fun s => !isWrappedState s) = st.m_expected →
      st.newStates.plus.countP (fun s => !isWrappedState s) = st.p_expected →
      (∀ e ∈ st.newAlignment,
        (∀ i, e.1 = some i → i < st.newStates.minus.length) ∧
        (∀ i, e.2 = some i → i < st.newStates.plus.length)) →
      wmpFold cfg lwd st al = .ok st' →
      unwrapAlignment st'.newStates.minus st'.newStates.plus st'.newAlignment =
        unwrapAlignment st.newStates.minus st.newStates.plus st.newAlignment
          ++ al := by
  intro al
  induction al with
  | nil =>
    intro st st' _ _ _ _ _ _ _ hEq
    simp only [wmpFold] at hEq
    cases hEq
    rw [List.append_nil]
  | cons eo rest ih =>
    intro st st' hnm hnp hl1 hl2 hc1 hc2 hb hEq
    simp only [wmpFold] at hEq
    cases hS : wmpStep cfg lwd st eo with
    | error err => rw [hS] at hEq; cases hEq
    | ok st1 =>
      rw [hS] at hEq
      dsimp only at hEq
      rcases eo with ⟨eo1, eo2⟩
      match eo1, eo2 with
      | none, none => simp [wmpStep] at hS
      | some m, none =>
        obtain ⟨k, hk, hmeq, halign, hsm1, hsp1, hwm1, hwp1, hmex1, hpex1,
          hnm1, hsrp1⟩ := wmpStep_spec_minus cfg lwd st st1 m hS hnm
        have hlen1 : st1.newStates.minus.length =
            st.newStates.minus.length + k := by
          rw [hsm1]
          simp [List.length_append]
          omega
        have hrec := ih st1 st' hnm1 (by rw [hsrp1]; exact hnp)
          (by rw [hlen1, hwm1, hl1])
          (by rw [hsp1, hwp1, hl2])
          (by rw [hsm1, countP_block st.newStates.minus (State.HunkMinus none)
            State.HunkMinusWrapped (k - 1) rfl rfl, hc1, hmex1])
          (by rw [hsp1, hpex1, hc2])
          (by
            intro e he
            rw [halign] at he
            rcases List.mem_append.mp he with hold | hnew
            · obtain ⟨hbm, hbp⟩ := hb e hold
              refine ⟨fun i hi => ?_, fun i hi => ?_⟩
              · have := hbm i hi
                omega
              · have := hbp i hi
                rw [hsp1]
                exact this
            · simp only [List.mem_map] at hnew
              obtain ⟨i, hi, rfl⟩ := hnew
              rw [List.mem_range'_1] at hi
              refine ⟨fun j hj => ?_, fun j hj => ?_⟩
              · cases hj
                rw [hlen1, hl1]
                omega
              · cases hj)
          hEq
        rw [hrec, halign, unwrapAlignment_append]
        have hstab := unwrap_append_states st.newStates.minus st.newStates.plus
          (State.HunkMinus none :: List.replicate (k - 1) State.HunkMinusWrapped)
          [] st.newAlignment hb
        rw [List.append_nil] at hstab
        rw [hsm1, hsp1, hstab, ← hl1,
          unwrap_chunk_minus st.newStates.minus st.newStates.plus k hk,
          hc1, ← hmeq]
        simp
      | none, some p =>
        obtain ⟨k, hk, hpeq, halign, hsp1, hsm1, hwp1, hwm1, hpex1, hmex1,
          hnp1, hsrm1⟩ := wmpStep_spec_plus cfg lwd st st1 p hS hnp
        have hlen1 : st1.newStates.plus.length =
            st.newStates.plus.length + k := by
          rw [hsp1]
          simp [List.length_append]
          omega
        have hrec := ih st1 st' (by rw [hsrm1]; exact hnm) hnp1
          (by rw [hsm1, hwm1, hl1])
          (by rw [hlen1, hwp1, hl2])
          (by rw [hsm1, hmex1, hc1])
          (by rw [hsp1, countP_block st.newStates.plus (State.HunkPlus none)
            State.HunkPlusWrapped (k - 1) rfl rfl, hc2, hpex1])
          (by
            intro e he
            rw [halign] at he
            rcases List.mem_append.mp he with hold | hnew
            · obtain ⟨hbm, hbp⟩ := hb e hold
              refine ⟨fun i hi => ?_, fun i hi => ?_⟩
              · have := hbm i hi
                rw [hsm1]
                exact this
              · have := hbp i hi
                omega
            · simp only [List.mem_map] at hnew
              obtain ⟨i, hi, rfl⟩ := hnew
              rw [List.mem_range'_1] at hi
              refine ⟨fun j hj => ?_, fun j hj => ?_⟩
              · cases hj
              · cases hj
                rw [hlen1, hl2]
                omega)
          hEq
        rw [hrec, halign, unwrapAlignment_append]
        have hstab := unwrap_append_states st.newStates.minus st.newStates.plus
          [] (State.HunkPlus none :: List.replicate (k - 1) State.HunkPlusWrapped)
          st.newAlignment hb
        rw [List.append_nil] at hstab
        rw [hsm1, hsp1, hstab, ← hl2,
          unwrap_chunk_plus st.newStates.minus st.newStates.plus k hk,
          hc2, ← hpeq]
        simp
      | some m, some p =>
        obtain ⟨km, kp, hkm, hkp, hmeq, hpeq, halign, hsm1, hsp1, hwm1, hwp1,
          hmex1, hpex1, hnm1, hnp1⟩ := wmpStep_spec_both cfg lwd st st1 m p hS hnm hnp
        have hlenm : st1.newStates.minus.length =
            st.newStates.minus.length + km := by
          rw [hsm1]
          simp [List.length_append]
          omega
        have hlenp : st1.newStates.plus.length =
            st.newStates.plus.length + kp := by
          rw [hsp1]
          simp [List.length_append]
          omega
        have hrec := ih st1 st' hnm1 hnp1
          (by rw [hlenm, hwm1, hl1])
          (by rw [hlenp, hwp1, hl2])
          (by rw [hsm1, countP_block st.newStates.minus (State.HunkMinus none)
            State.HunkMinusWrapped (km - 1) rfl rfl, hc1, hmex1])
          (by rw [hsp1, countP_block st.newStates.plus (State.HunkPlus none)
            State.HunkPlusWrapped (kp - 1) rfl rfl, hc2, hpex1])
          (by
            intro e he
            rw [halign] at he
            rcases List.mem_append.mp he with hold | hnew
            · obtain ⟨hbm, hbp⟩ := hb e hold
              refine ⟨fun i hi => ?_, fun i hi => ?_⟩
              · have := hbm i hi
                omega
              · have := hbp i hi
                omega
            · rcases List.mem_append.mp hnew with hz | ht
              · obtain ⟨⟨i, j⟩, hij, rfl⟩ := List.mem_map.mp hz
                have hi := (List.of_mem_zip hij).1
                have hj := (List.of_mem_zip hij).2
                rw [List.mem_range'_1] at hi hj
                refine ⟨fun a ha => ?_, fun a ha => ?_⟩
                · cases ha
                  rw [hlenm, hl1]
                  omega
                · cases ha
                  rw [hlenp, hl2]
                  omega
              · have hbt := pairTail_bounds st.newWrappedSyn.minus.length
                  st.newWrappedSyn.plus.length km kp hkm hkp e ht
                refine ⟨fun a ha => ?_, fun a ha => ?_⟩
                · have := hbt.2.1 a ha
                  rw [hlenm, hl1]
                  omega
                · have := hbt.2.2 a ha
                  rw [hlenp, hl2]
                  omega)
          hEq
        rw [hrec, halign, unwrapAlignment_append]
        have hstab := unwrap_append_states st.newStates.minus st.newStates.plus
          (State.HunkMinus none :: List.replicate (km - 1) State.HunkMinusWrapped)
          (State.HunkPlus none :: List.replicate (kp - 1) State.HunkPlusWrapped)
          st.newAlignment hb
        rw [hsm1, hsp1, hstab, ← hl1, ← hl2,
          unwrap_chunk_both st.newStates.minus st.newStates.plus km kp hkm hkp,
          hc1, hc2, ← hmeq, ← hpeq]
        simp


/-- C3 — Alignment fidelity: whenever `wrap_minusplus_block` succeeds on
syntax-side lines with nonempty text, walking the returned post-wrap alignment,
discarding every row whose per-side physical index refers to a continuation
row (state `HunkMinusWrapped`/`HunkPlusWrapped`), and renumbering the
remaining physical indices back to logical indices by counting the
non-continuation states before them, recovers exactly the pre-wrap alignment
that was passed in. -/
theorem C3_alignment_fidelity {σ δ : Type} [Inhabited σ] [Inhabited δ]
    (cfg : Config σ δ) (syn : MinusPlus (List (LineSegments σ)))
    (diff : MinusPlus (List (LineSegments δ)))
    (al : List (Option Nat × Option Nat)) (lwd : MinusPlus Nat)
    (winfo : MinusPlus (List Bool))
    (hnm : ∀ l ∈ syn.minus, concatText l ≠ [])
    (hnp : ∀ l ∈ syn.plus, concatText l ≠ [])
    (out : List (Option Nat × Option Nat) × MinusPlus (List State) ×
      MinusPlus (List (LineSegments σ)) × MinusPlus (List (LineSegments δ)))
    (h : wrap_minusplus_block cfg syn diff al lwd winfo = .ok out) :
    unwrapAlignment out.2.1.minus out.2.1.plus out.1 = al := by
  simp only [wrap_minusplus_block] at h
  cases hF : wmpFold cfg lwd (wmpInit syn diff winfo) al with
  | error err => rw [hF] at h; cases h
  | ok st' =>
    rw [hF] at h
    dsimp only at h
    cases h
    have hu := wmpFold_unwrap cfg lwd al (wmpInit syn diff winfo) st'
      hnm hnp rfl rfl rfl rfl
      (by intro e he; simp [wmpInit] at he) hF
    simpa [wmpInit, unwrapAlignment] using hu

def synC3 : MinusPlus (List (LineSegments Unit)) := ⟨[lineM], [lineP]⟩

def alC3 : List (Option Nat × Option Nat) := [(some 0, some 0)]

def winfoC3 : MinusPlus (List Bool) := ⟨[true], [false]⟩

def c3out : List (Option Nat × Option Nat) × MinusPlus (List State) ×
    MinusPlus (List (LineSegments Unit)) × MinusPlus (List (LineSegments Unit)) :=
  (wrap_minusplus_block cfgW synC3 synC3 alC3 lwW winfoC3).toOption.getD
    ([], ⟨[], []⟩, ⟨[], []⟩, ⟨[], []⟩)

/-- Witness for C3 at a concrete block in which the minus line wraps. -/
theorem C3_alignment_fidelity_witness :
    (∀ l ∈ synC3.minus, concatText l ≠ []) ∧
      (∀ l ∈ synC3.plus, concatText l ≠ []) ∧
      wrap_minusplus_block cfgW synC3 synC3 alC3 lwW winfoC3 = .ok c3out ∧
      unwrapAlignment c3out.2.1.minus c3out.2.1.plus c3out.1 = alC3 :=
  ⟨by decide, by decide, by rfl,
    C3_alignment_fidelity cfgW synC3 synC3 alC3 lwW winfoC3
      (by decide) (by decide) c3out (by rfl)⟩



/-- C9 — Error surfacing by assertion (amended): every failure mode of
`wrap_minusplus_block` surfaces as an error carrying a side tag and positional
hint: exhausted wrap-info, syntax or diff iterators; a mismatched alignment
index on either side; a `(None, None)` alignment entry; and a divergence
between the syntax-style and diff-style wrap results. The divergence
assertion, however, compares only the produced `(start, extended_to)` row
ranges: whenever the two ranges agree the call succeeds, so grapheme-split
points and row contents are not checked (the claim's stronger reading is
refuted by the counterexample). -/
theorem C9_error_surfacing_amended {σ δ : Type} [Inhabited σ] [Inhabited δ]
    (cfg : Config σ δ) (ws : List (LineSegments σ)) (wd : List (LineSegments δ))
    (s1 : LineSegments σ) (si : List (LineSegments σ))
    (d1 : LineSegments δ) (di : List (LineSegments δ))
    (b : Bool) (wi : List Bool) (lw : Nat) (fs : δ) (eh : String)
    (lwd : MinusPlus Nat) (st : WmpState σ δ) (m p : Nat) :
    wrap_syntax_and_diff cfg ws wd si di [] lw fs eh =
      .error ("bad wrap info " ++ eh) ∧
    wrap_syntax_and_diff cfg ws wd [] di (b :: wi) lw fs eh =
      .error ("bad syntax alignment " ++ eh) ∧
    wrap_syntax_and_diff cfg ws wd (s1 :: si) [] (b :: wi) lw fs eh =
      .error ("bad diff alignment " ++ eh) ∧
    ((wrap_if_too_long cfg.wrap_config ws s1 b lw cfg.null_syntect_style
        (some cfg.inline_hint_syntect_style)).2 ≠
      (wrap_if_too_long cfg.wrap_config wd d1 b lw fs
        (if cfg.inline_hint_style_has_background then some cfg.inline_hint_style
         else none)).2 →
      wrap_syntax_and_diff cfg ws wd (s1 :: si) (d1 :: di) (b :: wi) lw fs eh =
        .error ("syntax and diff wrapping differs " ++ eh)) ∧
    ((wrap_if_too_long cfg.wrap_config ws s1 b lw cfg.null_syntect_style
        (some cfg.inline_hint_syntect_style)).2 =
      (wrap_if_too_long cfg.wrap_config wd d1 b lw fs
        (if cfg.inline_hint_style_has_background then some cfg.inline_hint_style
         else none)).2 →
      wrap_syntax_and_diff cfg ws wd (s1 :: si) (d1 :: di) (b :: wi) lw fs eh =
        .ok ((wrap_if_too_long cfg.wrap_config ws s1 b lw cfg.null_syntect_style
            (some cfg.inline_hint_syntect_style)).1,
          (wrap_if_too_long cfg.wrap_config wd d1 b lw fs
            (if cfg.inline_hint_style_has_background then some cfg.inline_hint_style
             else none)).1, si, di, wi,
          (wrap_if_too_long cfg.wrap_config ws s1 b lw cfg.null_syntect_style
            (some cfg.inline_hint_syntect_style)).2.1,
          (wrap_if_too_long cfg.wrap_config ws s1 b lw cfg.null_syntect_style
            (some cfg.inline_hint_syntect_style)).2.2)) ∧
    (m ≠ st.m_expected →
      wrapAndAssertLeft cfg lw st eh m = .error ("bad alignment index " ++ eh)) ∧
    (p ≠ st.p_expected →
      wrapAndAssertRight cfg lw st eh p = .error ("bad alignment index " ++ eh)) ∧
    wmpStep cfg lwd st (none, none) = .error "None-None alignment" := by
  refine ⟨rfl, rfl, rfl, ?_, ?_, ?_, ?_, rfl⟩
  · intro hne
    simp only [wrap_syntax_and_diff]
    rw [if_neg hne]
  · intro he
    simp only [wrap_syntax_and_diff]
    rw [if_pos he]
  · intro hm
    unfold wrapAndAssertLeft
    rw [if_neg hm]
  · intro hp
    unfold wrapAndAssertRight
    rw [if_neg hp]

def synC9 : LineSegments Unit := [((), ['_', 'a', 'b', 'c', 'd', 'e'])]

def diffC9 : LineSegments Unit := [((), ['_', 'a', 'b', 'c', 'd'])]

/-- Counterexample for C9's stronger reading: the syntax-side and diff-side
lines here have different underlying text and different grapheme-split points,
yet both wrap to two rows, so the assertion on the `(start, extended_to)`
ranges passes and the call returns `.ok` with diverging wrapped contents. -/
theorem C9_counterexample :
    concatText synC9 ≠ concatText diffC9 ∧
    (wrap_syntax_and_diff cfgW [] [] [synC9] [diffC9] [true] 3 () "x").toOption.isSome
      = true ∧
    (wrap_syntax_and_diff cfgW [] [] [synC9] [diffC9] [true] 3 () "x").toOption.map
        (fun o => o.1.map concatText) ≠
      (wrap_syntax_and_diff cfgW [] [] [synC9] [diffC9] [true] 3 () "x").toOption.map
        (fun o => o.2.1.map concatText) :=
  ⟨by decide, by rfl, by decide⟩


end DeltaSbs
